import Mathlib

/-!
Verification of the E7umf UHF RFID reader library (`src/E7umf.py`).

The development shallowly embeds the protocol codec and transport framing
layer of the library: byte buffers are `List Nat` (each element a byte
value `0..255` as produced by Python `bytes`/`bytearray`), Python `int`
values that may go negative are `Int`, fallible operations return
`Except`/`Option`.  Python `bytearray` indexing and item assignment are
modelled by `pyGet`/`pySet` (negative indices wrap from the end, an
out-of-range index or out-of-range stored value is an exception), and
slice assignment by `pySliceAssign` (which may change the length of the
buffer, exactly as in Python).  Exceptions that the source code catches
with a bare `except Exception` are modelled with the `Except.error`
constructor.

USB transport is modelled by oracles: outbound transmission is a list of
chunks, inbound reads are drawn from a list of (chunk, elapsed-time)
events supplied to `read_response`, and for higher level operations the
transport outcome is an explicit parameter (`SendOutcome`,
`RecvOutcome`).  The device-handle check at the top of every operation
(returning `32` for a stale handle) is outside the modelled fragment:
all operations are modelled in the connected state.
-/

namespace E7umf

/-- Python truthiness for an optional byte string: `None` and the empty
byte string are falsy. -/
def isTruthy : Option (List Nat) → Bool
  | none => false
  | some l => !l.isEmpty

/-- Normalize a Python sequence index of a sequence of length `len`:
negative indices count from the end, anything still out of range is an
`IndexError` (`none`). -/
def pyIdx (len : Nat) (i : Int) : Option Nat :=
  if i < 0 then (if 0 ≤ i + len then some (i + len).toNat else none)
  else if i < (len : Int) then some i.toNat else none

/-- Python `l[i]` on a byte sequence. -/
def pyGet (l : List Nat) (i : Int) : Except Unit Nat :=
  match pyIdx l.length i with
  | some j => .ok (l.getD j 0)
  | none => .error ()

/-- Python `l[i] = v` on a `bytearray`: the stored value must be a byte
(`0 ≤ v < 256`, else `ValueError`), the index must be in range after
negative-index normalization (else `IndexError`). -/
def pySet (l : List Nat) (i : Int) (v : Int) : Except Unit (List Nat) :=
  if 0 ≤ v ∧ v < 256 then
    match pyIdx l.length i with
    | some j => .ok (l.set j v.toNat)
    | none => .error ()
  else .error ()

/-- Python `l[start:stop] = v` on a `bytearray` with non-negative
`start`/`stop`: the addressed slice is replaced by `v`, which may change
the length of the buffer.  Every value of `v` must be a byte. -/
def pySliceAssign (l : List Nat) (start stop : Nat) (v : List Nat) :
    Except Unit (List Nat) :=
  if v.all (· < 256) then
    let a := min start l.length
    let b := max a (min stop l.length)
    .ok (l.take a ++ v ++ l.drop b)
  else .error ()

/-- Python `bytearray([...])` from a literal list: every element must be
a byte value. -/
def mkBytearray (l : List Nat) : Except Unit (List Nat) :=
  if l.all (· < 256) then .ok l else .error ()

/-- Model of `toHexChar` from `E7umf.py`: `(value + 55) if value >= 10 else (value + 48)`. -/
def toHexChar (value : Nat) : Nat :=
  if 10 ≤ value then value + 55 else value + 48

/-- The assignment loop of `binaryToHex`: each consumed byte `v` stores
`toHexChar (v >> 4)` and `toHexChar (v & 0xF)` into the result
`bytearray`; a stored value outside `0..255` is a `ValueError`
(propagated as an exception). -/
def binHexBytes : List Nat → Except Unit (List Nat)
  | [] => .ok []
  | v :: rest =>
    let hi := toHexChar (v >>> 4)
    let lo := toHexChar (v &&& 15)
    if hi < 256 ∧ lo < 256 then
      match binHexBytes rest with
      | .ok tl => .ok (hi :: lo :: tl)
      | .error e => .error e
    else .error ()

/-- Model of `binaryToHex(source, length)` from `E7umf.py`.  Returns `ok none`
for the guarded failure (`length <= 0 or not source`), raises
(`error`) when the loop indexes past the end of `source`
(`IndexError`), and otherwise returns the hex-ASCII encoding of the
first `length` bytes. -/
def binaryToHex (source : List Nat) (length : Int) : Except Unit (Option (List Nat)) :=
  if length ≤ 0 ∨ source.isEmpty then .ok none
  else if (source.length : Int) < length then .error ()
  else
    match binHexBytes (source.take length.toNat) with
    | .ok hd => .ok (some hd)
    | .error e => .error e

/-- The hex-digit range check of `asciiToHex`:
`48 <= c <= 57 or 65 <= c <= 70 or 97 <= c <= 102`. -/
def isHexDigitByte (c : Nat) : Bool :=
  (48 ≤ c ∧ c ≤ 57) ∨ (65 ≤ c ∧ c ≤ 70) ∨ (97 ≤ c ∧ c ≤ 102)

/-- Value of `int(chr(c), 16)` for a byte `c` passing `isHexDigitByte`. -/
def hexVal (c : Nat) : Nat :=
  if 97 ≤ c then c - 87 else if 65 ≤ c then c - 55 else c - 48

/-- The decoding loop of `asciiToHex`: consume the input two bytes at a
time, failing (`none`) as soon as a consumed byte is not a hex digit. -/
def hexPairs : List Nat → Option (List Nat)
  | [] => some []
  | [_] => some []
  | hi :: lo :: rest =>
    if isHexDigitByte hi ∧ isHexDigitByte lo then
      (hexPairs rest).map (fun tl => (16 * hexVal hi + hexVal lo) :: tl)
    else none

/-- Model of `asciiToHex(source, length)` from `E7umf.py`: fails on
`length <= 0 or not source or len(source) < length * 2`, then decodes
`length` pairs of hex digits, failing on the first non-hex-digit byte. -/
def asciiToHex (source : List Nat) (length : Nat) : Option (List Nat) :=
  if length = 0 ∨ source.isEmpty ∨ source.length < length * 2 then none
  else hexPairs (source.take (length * 2))

/-- One chunk of `send_command` when `bytes_written = bw`:
`chunk = data[bw:bw+64]`, with the first byte overwritten by the
continuation marker `0x82` when `len(data) > 64 and bw + 64 < len(data)`
and by the end marker `0x02` when only `len(data) > 64`. -/
def sendChunk (data : List Nat) (bw : Nat) : List Nat :=
  let chunk := (data.drop bw).take 64
  if 64 < data.length ∧ bw + 64 < data.length then 130 :: chunk.drop 1
  else if 64 < data.length then 2 :: chunk.drop 1
  else chunk

/-- The transmission loop of `send_command`: while `bw < len(data)`,
transmit `sendChunk data bw` and advance `bw` by 64.  The result is the
list of transmitted chunks, in transmission order. -/
def send_command_loop (data : List Nat) (bw : Nat) : List (List Nat) :=
  if _h : bw < data.length then sendChunk data bw :: send_command_loop data (bw + 64)
  else []
termination_by data.length - bw
decreasing_by omega

/-- Model of `send_command(device, data)` from `E7umf.py`, observed as the list
of chunks written to the OUT endpoint. -/
def send_command (data : List Nat) : List (List Nat) :=
  send_command_loop data 0

/-- The accumulation loop of `read_response`.  The device side is an
oracle list of events: each event is a chunk returned by `device.read`
together with the elapsed time in milliseconds at which the chunk was
received.  When the event list is exhausted the next `device.read`
raises a USB timeout error, which the source catches and turns into
`None`.  An empty chunk makes `chunk_bytes[0]` raise `IndexError`,
which is not caught inside `read_response` (`error`). -/
def read_response_go (timeout : Nat) :
    List (List Nat × Nat) → List Nat → Except Unit (Option (List Nat))
  | [], _ => .ok none
  | (chunk, t) :: rest, acc =>
    if chunk.isEmpty then .error ()
    else
      let acc' := acc ++ chunk
      if chunk.headD 0 ≠ 63 ∨ timeout < t then
        .ok (if acc'.isEmpty then none else some acc')
      else if chunk.length < 64 then
        .ok (if acc'.isEmpty then none else some acc')
      else read_response_go timeout rest acc'

/-- Model of `read_response(device, timeout)` from `E7umf.py`, run against an
oracle of read events. -/
def read_response (events : List (List Nat × Nat)) (timeout : Nat) :
    Except Unit (Option (List Nat)) :=
  read_response_go timeout events []

/-- The command frame built by `uhf_read` (after the `infoType` check):
`command = bytearray(256)` followed by the field assignments from the
source, with the `address >= 0x10` branch choosing the two-hex-digit
address encoding; returns `command[:command_length]`. -/
def uhf_read_frame (infoType address rlen : Nat) : Except Unit (List Nat) := do
  let c := List.replicate 256 0
  let c ← pySet c 1 2
  let c ← pySliceAssign c 2 4 [65, 82]
  let c ← pySet c 4 (infoType + 48)
  let c ← pySet c 5 44
  if 16 ≤ address then
    let c ← pySet c 6 (toHexChar (address >>> 4))
    let c ← pySet c 7 (toHexChar (address &&& 15))
    let c ← pySet c 8 44
    let c ← pySet c 9 (if 10 ≤ rlen then (rlen : Int) + 55 else (rlen : Int) + 48)
    let c ← pySet c 0 9
    return c.take 10
  else
    let c ← pySet c 6 (toHexChar address)
    let c ← pySet c 7 44
    let c ← pySet c 8 (if 10 ≤ rlen then (rlen : Int) + 55 else (rlen : Int) + 48)
    let c ← pySet c 0 8
    return c.take 9

/-- The command frame built by `uhf_write` (after the `infoType` check):
like `uhf_read_frame` but with mnemonic `AW` and the raw payload
`pData[:wlen*4]` slice-assigned after the length field; the length
prefix `command[0] = command_length - 1` is stored after the slice
assignment, and `command[:command_length]` is returned. -/
def uhf_write_frame (infoType address wlen : Nat) (pData : List Nat) :
    Except Unit (List Nat) := do
  let c := List.replicate 256 0
  let c ← pySet c 1 2
  let c ← pySliceAssign c 2 4 [65, 87]
  let c ← pySet c 4 (infoType + 48)
  let c ← pySet c 5 44
  if 16 ≤ address then
    let c ← pySet c 6 (toHexChar (address >>> 4))
    let c ← pySet c 7 (toHexChar (address &&& 15))
    let c ← pySet c 8 44
    let c ← pySet c 9 (if 10 ≤ wlen then (wlen : Int) + 55 else (wlen : Int) + 48)
    let c ← pySet c 10 44
    let c ← pySliceAssign c 11 (11 + wlen * 4) (pData.take (wlen * 4))
    let c ← pySet c 0 ((11 + wlen * 4 : Int) - 1)
    return c.take (11 + wlen * 4)
  else
    let c ← pySet c 6 (toHexChar address)
    let c ← pySet c 7 44
    let c ← pySet c 8 (if 10 ≤ wlen then (wlen : Int) + 55 else (wlen : Int) + 48)
    let c ← pySet c 9 44
    let c ← pySliceAssign c 10 (10 + wlen * 4) (pData.take (wlen * 4))
    let c ← pySet c 0 ((10 + wlen * 4 : Int) - 1)
    return c.take (10 + wlen * 4)

/-- The command frame built by `uhf_action` (after the action check):
`bytearray([4, 2, 145, action, time])`. -/
def uhf_action_frame (action time : Nat) : Except Unit (List Nat) :=
  mkBytearray [4, 2, 145, action, time]

/-- The command frame built by `uhf_setAccessPassword` (after the
8-byte check): a 12-byte buffer with length prefix 11, marker 2,
mnemonic `AP` and the two password halves. -/
def uhf_setAccessPassword_frame (pw : List Nat) : Except Unit (List Nat) := do
  let c := List.replicate 12 0
  let c ← pySet c 0 11
  let c ← pySet c 1 2
  let c ← pySliceAssign c 2 4 [65, 80]
  let c ← pySliceAssign c 4 8 (pw.take 4)
  let c ← pySliceAssign c 8 12 ((pw.drop 4).take 4)
  return c

/-- The command frame built by `uhf_lockMemory` (after the 6-byte
check): an 11-byte buffer with length prefix 10, marker 2, mnemonic
`AL` and the 6-byte lock setting. -/
def uhf_lockMemory_frame (ls : List Nat) : Except Unit (List Nat) := do
  let c := List.replicate 11 0
  let c ← pySet c 0 10
  let c ← pySet c 1 2
  let c ← pySliceAssign c 2 4 [65, 76]
  let c ← pySliceAssign c 4 10 ls
  return c

/-- The initial inventory command `bytearray([3, 2, 85, 0x80])`. -/
def uhf_inventory_frame1 : List Nat := [3, 2, 85, 128]

/-- The inventory follow-up command: the same buffer after
`command[3] = 145`. -/
def uhf_inventory_frame2 : List Nat := [3, 2, 85, 145]

/-- Outcome of `send_command` at the transport boundary, as seen by a
caller: the write succeeds, `device.write` raises a `usb.core.USBError`
(caught inside `send_command`, which then returns `False`), or it
raises some other exception (which propagates out of `send_command`). -/
inductive SendOutcome
  | sendOk
  | sendUsbErr
  | sendOtherExc
deriving DecidableEq

/-- Outcome of `read_response` as seen by a caller: a returned value
(`none` models the `None` result) or an exception propagating out of
`read_response`. -/
inductive RecvOutcome
  | resp (r : Option (List Nat))
  | recvExc
deriving DecidableEq

/-- Value stored by the payload-copy loop of `uhf_read`:
`response[5 + i] if 5 + i < len(response) else 0` (as the Python `int`
passed to the `bytearray` item assignment). -/
def fillVal (resp : List Nat) (i : Nat) : Int :=
  if 5 + i < resp.length then (resp.getD (5 + i) 0 : Int) else 0

/-- The payload-copy loop of `uhf_read`:
`for i in range(dl): pData[i] = fillVal resp i`, encoded structurally
with `n` the number of remaining iterations and `i` the current loop
index (the loop body runs for `i, i+1, ..., i+n-1`).  A failing
assignment raises, leaving the writes made so far in the buffer (the
`error` payload). -/
def readFill (resp : List Nat) : Nat → Nat → List Nat → Except (List Nat) (List Nat)
  | 0, _, pD => .ok pD
  | n + 1, i, pD =>
    match pySet pD i (fillVal resp i) with
    | .ok pD' => readFill resp n (i + 1) pD'
    | .error _ => .error pD

/-- Model of `uhf_read(icdev, infoType, address, rlen, pData)` from `E7umf.py`,
in the connected state, with the transport outcomes supplied as
parameters.  Returns the result code and the final contents of the
caller's buffer `pData`. -/
def uhf_read (infoType address rlen : Nat) (pData : List Nat)
    (send : SendOutcome) (recv : RecvOutcome) : Int × List Nat :=
  if infoType ∉ [1, 2, 3, 4] then (-2, pData)
  else
    match uhf_read_frame infoType address rlen with
    | .error _ => (-13, pData)
    | .ok _ =>
      match send with
      | .sendUsbErr => (-6, pData)
      | .sendOtherExc => (-13, pData)
      | .sendOk =>
        match recv with
        | .recvExc => (-13, pData)
        | .resp r =>
          if isTruthy r ∧ 6 ≤ (r.getD []).length ∧ (r.getD []).getD 4 0 = 82 then
            match readFill (r.getD []) (min (rlen * 4) pData.length) 0 pData with
            | .ok pD' => (0, pD')
            | .error pD' => (-13, pD')
          else (-6, pData)

/-- Result of processing one per-tag round of `uhf_inventory`: an early
`return` with a code, an exception (handled by the enclosing
`except Exception` with code `-13`), or continuation with the updated
buffer and write offset. -/
inductive InvStep
  | ret (code : Int) (pD : List Nat)
  | stepExc (pD : List Nat)
  | next (pD : List Nat) (off : Int)
deriving DecidableEq

/-- Result of the whole per-tag loop of `uhf_inventory`. -/
inductive InvLoopRes
  | ret (code : Int) (pD : List Nat)
  | loopExc (pD : List Nat)
  | done (pD : List Nat) (off : Int)
deriving DecidableEq

/-- The hex-data copy loop of one inventory round:
`for j in range(dl): pData[off + 2 + j] = hd[j] if j < len(hd) else 0`,
encoded structurally with `n` the number of remaining iterations
(`dl.toNat`, since `range` of a non-positive bound is empty) and `j`
the current loop index. -/
def hexFill (hd : List Nat) (off : Int) : Nat → Nat → List Nat → Except (List Nat) (List Nat)
  | 0, _, pD => .ok pD
  | n + 1, j, pD =>
    let v : Int := if j < hd.length then (hd.getD j 0 : Int) else 0
    match pySet pD (off + 2 + j) v with
    | .ok pD' => hexFill hd off n (j + 1) pD'
    | .error _ => .error pD

/-- One per-tag round of `uhf_inventory`: read a response `r?` from the
oracle (the follow-up `send_command` is modelled as succeeding), then
run the body of the `for i in range(count)` loop on it. -/
def invRound (r? : Option (List Nat)) (pD : List Nat) (off : Int) : InvStep :=
  if isTruthy r? = false then .ret (-6) pD
  else
    let r := r?.getD []
    if r.headD 0 = 4 then .ret 4 pD
    else
      match pyGet r 1 with
      | .error _ => .stepExc pD
      | .ok b1 =>
        if b1 ≠ 160 then .ret 160 pD
        else
          match pyGet r 5 with
          | .error _ => .stepExc pD
          | .ok r5 =>
            let byteCount : Int := 2 * (r5 : Int) - 8
            match pyGet r ((r.headD 0 : Int) - 1) with
            | .error _ => .stepExc pD
            | .ok lastByte =>
              match (if off < (pD.length : Int) then pySet pD off (byteCount + 1) else .ok pD) with
              | .error _ => .stepExc pD
              | .ok pD1 =>
                match (if off + 1 < (pD1.length : Int) then pySet pD1 (off + 1) lastByte else .ok pD1) with
                | .error _ => .stepExc pD1
                | .ok pD2 =>
                  match binaryToHex r byteCount with
                  | .error _ => .stepExc pD2
                  | .ok none => .next pD2 (off + byteCount + 2)
                  | .ok (some hd) =>
                    if hd.isEmpty then .next pD2 (off + byteCount + 2)
                    else
                      let dl : Int := min byteCount ((pD2.length : Int) - off - 2)
                      match hexFill hd off dl.toNat 0 pD2 with
                      | .error pD3 => .stepExc pD3
                      | .ok pD3 => .next pD3 (off + byteCount + 2)

/-- The per-tag loop of `uhf_inventory` (`for i in range(count)`),
consuming one oracle response per round. -/
def invTagLoop : Nat → List (Option (List Nat)) → List Nat → Int → InvLoopRes
  | 0, _, pD, off => .done pD off
  | n + 1, oracle, pD, off =>
    match invRound (oracle.headD none) pD off with
    | .ret c pD' => .ret c pD'
    | .stepExc pD' => .loopExc pD'
    | .next pD' off' => invTagLoop n oracle.tail pD' off'

/-- Model of `uhf_inventory(icdev, tagCount, dataLen, pData)` from `E7umf.py`,
in the connected state.  Transmission of the two command frames is
modelled as succeeding; the responses delivered by `read_response` are
drawn in order from the `oracle` list (an exhausted oracle yields
`None`).  Returns the result code and the final contents of the three
caller buffers `tagCount`, `dataLen` and `pData`. -/
def uhf_inventory (oracle : List (Option (List Nat)))
    (tagCount dataLen pData : List Nat) :
    Int × List Nat × List Nat × List Nat :=
  let r? := oracle.headD none
  if isTruthy r? ∧ 5 ≤ (r?.getD []).length then
    let r := r?.getD []
    let count := r.getD 4 0
    match pySet tagCount 0 ((count &&& 255 : Nat) : Int) with
    | .error _ => (-13, tagCount, dataLen, pData)
    | .ok tc1 =>
      match pySet tc1 1 (((count >>> 8) &&& 255 : Nat) : Int) with
      | .error _ => (-13, tc1, dataLen, pData)
      | .ok tc2 =>
        if count = 0 then
          match pySet dataLen 0 0 with
          | .error _ => (-13, tc2, dataLen, pData)
          | .ok d1 =>
            match pySet d1 1 0 with
            | .error _ => (-13, tc2, d1, pData)
            | .ok d2 => (0, tc2, d2, pData)
        else
          match invTagLoop count oracle.tail pData 0 with
          | .ret c pD' => (c, tc2, dataLen, pD')
          | .loopExc pD' => (-13, tc2, dataLen, pD')
          | .done pD' off =>
            match pySet dataLen 0 (Int.emod off 256) with
            | .error _ => (-13, tc2, dataLen, pD')
            | .ok d1 =>
              match pySet d1 1 (Int.emod (Int.fdiv off 256) 256) with
              | .error _ => (-13, tc2, d1, pD')
              | .ok d2 => (0, tc2, d2, pD')
  else (-6, tagCount, dataLen, pData)

/-! ### Helper lemmas about the Python-semantics primitives -/

theorem bindOk {α β : Type} {x : Except Unit α} {k : α → Except Unit β} {b : β}
    (h : (x >>= k) = .ok b) : ∃ a, x = .ok a ∧ k a = .ok b := by
  cases x with
  | ok a => exact ⟨a, rfl, h⟩
  | error e => simp [Bind.bind, Except.bind] at h

theorem pyIdx_natCast (len i : Nat) :
    pyIdx len (i : Int) = if i < len then some i else none := by
  unfold pyIdx
  rw [if_neg (by omega : ¬ ((i : Int) < 0))]
  by_cases h : i < len
  · rw [if_pos (by exact_mod_cast h), if_pos h, Int.toNat_natCast]
  · rw [if_neg (by exact_mod_cast h), if_neg h]

theorem pySet_ok_nat (l : List Nat) (i v : Nat) (hi : i < l.length) (hv : v < 256) :
    pySet l (i : Int) (v : Int) = .ok (l.set i v) := by
  unfold pySet
  rw [if_pos ⟨by omega, by exact_mod_cast hv⟩, pyIdx_natCast, if_pos hi,
    Int.toNat_natCast]

theorem pySet_ok_length {l l' : List Nat} {i v : Int} (h : pySet l i v = .ok l') :
    l'.length = l.length := by
  unfold pySet at h
  split at h
  · cases hj : pyIdx l.length i with
    | none => rw [hj] at h; cases h
    | some j =>
      rw [hj] at h
      cases h
      exact List.length_set ..
  · cases h

theorem pySet_zero_inv {l l' : List Nat} {v : Int} (h : pySet l 0 v = .ok l') :
    l' = l.set 0 v.toNat ∧ 0 ≤ v ∧ v < 256 ∧ 0 < l.length := by
  unfold pySet pyIdx at h
  by_cases hv : (0 : Int) ≤ v ∧ v < 256
  · rw [if_pos hv, if_neg (by omega : ¬ ((0 : Int) < 0))] at h
    by_cases hl : (0 : Int) < (l.length : Int)
    · rw [if_pos hl] at h
      cases h
      exact ⟨rfl, hv.1, hv.2, by exact_mod_cast hl⟩
    · rw [if_neg hl] at h
      cases h
  · rw [if_neg hv] at h
    cases h

theorem pyGet_ok_int (l : List Nat) (i : Int) (h0 : 0 ≤ i) (h1 : i < l.length) :
    pyGet l i = .ok (l.getD i.toNat 0) := by
  unfold pyGet pyIdx
  rw [if_neg (by omega : ¬ (i < 0)), if_pos h1]

theorem pyGet_ok_nat (l : List Nat) (i : Nat) (hi : i < l.length) :
    pyGet l (i : Int) = .ok (l.getD i 0) := by
  rw [pyGet_ok_int l i (by omega) (by exact_mod_cast hi), Int.toNat_natCast]

theorem pySliceAssign_ok_inv {l l' : List Nat} {start stop : Nat} {v : List Nat}
    (h : pySliceAssign l start stop v = .ok l') :
    l' = l.take (min start l.length) ++ v ++
      l.drop (max (min start l.length) (min stop l.length)) := by
  unfold pySliceAssign at h
  split at h
  · cases h; rfl
  · cases h

theorem pySliceAssign_ok_length {l l' : List Nat} {start stop : Nat} {v : List Nat}
    (h : pySliceAssign l start stop v = .ok l') :
    l'.length = min start l.length + v.length +
      (l.length - max (min start l.length) (min stop l.length)) := by
  rw [pySliceAssign_ok_inv h]
  simp [List.length_append, List.length_take, List.length_drop]
  omega

theorem getD_set_self (l : List Nat) (i v : Nat) (h : i < l.length) :
    (l.set i v).getD i 0 = v := by
  simp [List.getD_eq_getElem?_getD, List.getElem?_set, h]

theorem getD_set_ne (l : List Nat) {i j : Nat} (v : Nat) (h : i ≠ j) :
    (l.set i v).getD j 0 = l.getD j 0 := by
  simp [List.getD_eq_getElem?_getD, List.getElem?_set_ne h]

theorem headD_set_zero (l : List Nat) (v : Nat) (h : 0 < l.length) :
    (l.set 0 v).headD 0 = v := by
  cases l with
  | nil => simp at h
  | cons a t => rfl

theorem headD_take (l : List Nat) (n : Nat) (h : 0 < n) :
    (l.take n).headD 0 = l.headD 0 := by
  cases l with
  | nil => simp
  | cons a t =>
    cases n with
    | zero => omega
    | succ n => rfl

theorem getD_mem (l : List Nat) (i : Nat) (h : i < l.length) : l.getD i 0 ∈ l := by
  rw [List.getD_eq_getElem?_getD, List.getElem?_eq_getElem h]
  exact List.getElem_mem h

/-! ### C1: chunking behaviour of send_command -/

theorem send_command_loop_length (data : List Nat) (bw : Nat) :
    (send_command_loop data bw).length = (data.length - bw + 63) / 64 := by
  rw [send_command_loop]
  split
  · rw [List.length_cons, send_command_loop_length data (bw + 64)]
    omega
  · simp only [List.length_nil]
    omega
termination_by data.length - bw
decreasing_by omega

theorem send_command_loop_getD (data : List Nat) (bw i : Nat)
    (h : bw + 64 * i < data.length) :
    (send_command_loop data bw).getD i [] = sendChunk data (bw + 64 * i) := by
  rw [send_command_loop]
  split
  · cases i with
    | zero => simp
    | succ i =>
      have := send_command_loop_getD data (bw + 64) i (by omega)
      simpa [List.getD_cons_succ, (by omega : bw + 64 + 64 * i = bw + 64 * (i + 1))]
        using this
  · omega
termination_by data.length - bw
decreasing_by omega

/-- C1: for every frame of length `L ≤ 64` (a frame is nonempty: its
first byte is its own length minus one), `send_command` transmits
exactly one chunk, byte-for-byte equal to the frame; for `L > 64` it
transmits exactly `⌈L/64⌉` chunks in order, where chunk `i` carries the
frame bytes `64*i .. 64*i+63` with the first byte overwritten by `0x82`
on every chunk except the last and by `0x02` on the last. -/
theorem send_command_chunking (data : List Nat) :
    (0 < data.length → data.length ≤ 64 → send_command data = [data]) ∧
    (64 < data.length →
      (send_command data).length = (data.length + 63) / 64 ∧
      ∀ i, i < (send_command data).length →
        (send_command data).getD i [] =
          (if i + 1 < (send_command data).length then 130 else 2) ::
            (data.drop (64 * i + 1)).take 63) := by
  have hlen : (send_command data).length = (data.length + 63) / 64 := by
    rw [send_command, send_command_loop_length]
    omega
  have loop_pos : ∀ {bw : Nat}, bw < data.length →
      send_command_loop data bw = sendChunk data bw :: send_command_loop data (bw + 64) := by
    intro bw h
    rw [send_command_loop]
    exact dif_pos h
  have loop_neg : ∀ {bw : Nat}, ¬ bw < data.length → send_command_loop data bw = [] := by
    intro bw h
    rw [send_command_loop]
    exact dif_neg h
  constructor
  · intro hpos hle
    rw [send_command, loop_pos (by omega), loop_neg (by omega)]
    unfold sendChunk
    rw [if_neg (by omega), if_neg (by omega)]
    simp [List.take_of_length_le (by omega : data.length ≤ 64)]
  · intro hgt
    refine ⟨hlen, fun i hi => ?_⟩
    have hbound : 64 * i < data.length := by
      rw [hlen] at hi; omega
    have hget : (send_command data).getD i [] = sendChunk data (64 * i) := by
      rw [send_command]
      simpa using send_command_loop_getD data 0 i (by omega)
    rw [hget]
    unfold sendChunk
    have hmark : (64 * i + 64 < data.length) ↔ (i + 1 < (send_command data).length) := by
      rw [hlen]; omega
    have htail : ((data.drop (64 * i)).take 64).drop 1 =
        (data.drop (64 * i + 1)).take 63 := by
      rw [List.drop_take, List.drop_drop]
    by_cases hc : 64 * i + 64 < data.length
    · rw [if_pos ⟨hgt, hc⟩, if_pos (hmark.mp hc), htail]
    · rw [if_neg (by tauto), if_pos hgt, htail,
        if_neg (by rw [← hmark]; exact hc)]

/-- Witness for C1 at concrete frames: a 3-byte frame goes out as a
single unmodified chunk, and chunk 0 of a 130-byte frame is
continuation-marked. -/
theorem send_command_chunking_witness :
    send_command [1, 2, 3] = [[1, 2, 3]] ∧
    (send_command (List.replicate 130 7)).length = (130 + 63) / 64 ∧
    (send_command (List.replicate 130 7)).getD 0 [] =
      130 :: ((List.replicate 130 7).drop 1).take 63 := by
  have h1 := (send_command_chunking [1, 2, 3]).1 (by decide) (by decide)
  have h2 := (send_command_chunking (List.replicate 130 7)).2
    (by rw [List.length_replicate]; omega)
  have h2len : (send_command (List.replicate 130 7)).length = (130 + 63) / 64 := by
    rw [h2.1, List.length_replicate]
  refine ⟨h1, h2len, ?_⟩
  have h3 := h2.2 0 (by rw [h2len]; decide)
  rw [h3]
  rw [if_pos (by rw [h2len]; decide)]


/-! ### C5 and C6: the hex-ASCII codec -/

theorem hexDigitKey : ∀ d : Nat, d < 16 →
    toHexChar d < 256 ∧ isHexDigitByte (toHexChar d) = true ∧ hexVal (toHexChar d) = d := by
  decide

theorem shiftRight_four (v : Nat) : v >>> 4 = v / 16 := by
  rw [Nat.shiftRight_eq_div_pow]

theorem and_fifteen (v : Nat) : v &&& 15 = v % 16 := by
  have h := Nat.and_pow_two_sub_one_eq_mod v 4
  norm_num at h
  exact h

theorem hexCharKey (v : Nat) (hv : v < 256) :
    toHexChar (v >>> 4) < 256 ∧ toHexChar (v &&& 15) < 256 ∧
    isHexDigitByte (toHexChar (v >>> 4)) = true ∧
    isHexDigitByte (toHexChar (v &&& 15)) = true ∧
    16 * hexVal (toHexChar (v >>> 4)) + hexVal (toHexChar (v &&& 15)) = v := by
  rw [shiftRight_four, and_fifteen]
  have h1 := hexDigitKey (v / 16) (by omega)
  have h2 := hexDigitKey (v % 16) (by omega)
  refine ⟨h1.1, h2.1, h1.2.1, h2.2.1, ?_⟩
  rw [h1.2.2, h2.2.2]
  omega

theorem binHexBytes_ok (b : List Nat) (hb : ∀ x ∈ b, x < 256) :
    binHexBytes b =
      .ok (b.flatMap fun v => [toHexChar (v >>> 4), toHexChar (v &&& 15)]) := by
  induction b with
  | nil => rfl
  | cons v rest ih =>
    have hv := hexCharKey v (hb v (by simp))
    simp only [binHexBytes]
    rw [if_pos ⟨hv.1, hv.2.1⟩, ih (fun x hx => hb x (by simp [hx]))]
    simp

theorem flatMap_hex_length (b : List Nat) :
    (b.flatMap fun v => [toHexChar (v >>> 4), toHexChar (v &&& 15)]).length =
      2 * b.length := by
  induction b with
  | nil => rfl
  | cons v rest ih =>
    rw [List.flatMap_cons, List.length_append, ih]
    simp only [List.length_cons, List.length_nil, List.length_singleton]
    omega

theorem hexPairs_encode (b : List Nat) (hb : ∀ x ∈ b, x < 256) :
    hexPairs (b.flatMap fun v => [toHexChar (v >>> 4), toHexChar (v &&& 15)]) =
      some b := by
  induction b with
  | nil => rfl
  | cons v rest ih =>
    have hv := hexCharKey v (hb v (by simp))
    rw [List.flatMap_cons, List.cons_append, List.cons_append, List.nil_append]
    simp only [hexPairs]
    rw [if_pos ⟨hv.2.2.1, hv.2.2.2.1⟩, ih (fun x hx => hb x (by simp [hx]))]
    rw [Option.map_some', hv.2.2.2.2]

theorem hexPairs_valid : ∀ (n : Nat) (l : List Nat), l.length = 2 * n →
    (∀ i, i < l.length → isHexDigitByte (l.getD i 0) = true) →
    ∃ out, hexPairs l = some out ∧ out.length = n := by
  intro n
  induction n with
  | zero =>
    intro l hl _
    rw [List.length_eq_zero] at hl
    subst hl
    exact ⟨[], rfl, rfl⟩
  | succ n ih =>
    intro l hl hv
    rcases l with _ | ⟨a, _ | ⟨b, rest⟩⟩
    · exact absurd hl (by simp)
    · exact absurd hl (by simp; omega)
    · have hva : isHexDigitByte a = true := hv 0 (by simp)
      have hvb : isHexDigitByte b = true := hv 1 (by simp)
      obtain ⟨out, ho, hlen⟩ := ih rest
        (by simp only [List.length_cons] at hl; omega)
        (fun i hi => by
          have := hv (i + 2) (by simp only [List.length_cons] at hi ⊢; omega)
          simpa using this)
      refine ⟨(16 * hexVal a + hexVal b) :: out, ?_, by simp [hlen]⟩
      simp only [hexPairs]
      rw [if_pos ⟨hva, hvb⟩, ho]
      rfl

theorem hexPairs_invalid : ∀ (n : Nat) (l : List Nat), l.length = 2 * n →
    ∀ i, i < l.length → isHexDigitByte (l.getD i 0) = false →
    hexPairs l = none := by
  intro n
  induction n with
  | zero =>
    intro l hl i hi _
    omega
  | succ n ih =>
    intro l hl i hi hbad
    rcases l with _ | ⟨a, _ | ⟨b, rest⟩⟩
    · exact absurd hl (by simp)
    · exact absurd hl (by simp; omega)
    · simp only [hexPairs]
      by_cases hab : isHexDigitByte a = true ∧ isHexDigitByte b = true
      · rw [if_pos hab]
        rcases i with _ | ⟨_ | i⟩
        · simp only [List.getD_cons_zero] at hbad
          rw [hbad] at hab
          simp at hab
        · simp only [List.getD_cons_succ, List.getD_cons_zero] at hbad
          rw [hbad] at hab
          simp at hab
        · rw [ih rest (by simp only [List.length_cons] at hl; omega) i
            (by simp only [List.length_cons] at hi ⊢; omega) (by simpa using hbad)]
          rfl
      · rw [if_neg hab]

/-- C5 counterexample: the round-trip is claimed for all byte
sequences, but for the empty sequence `binaryToHex` takes its guarded
failure path (`length <= 0 or not source`) and returns `None`, so no
hex-ASCII encoding of `b` exists at all and neither the round-trip nor
the length property holds at `b = []`. -/
theorem hex_roundtrip_fails_on_empty :
    ¬ (∀ b : List Nat, (∀ x ∈ b, x < 256) →
        ∃ enc, binaryToHex b (b.length : Int) = .ok (some enc) ∧
          enc.length = 2 * b.length ∧ asciiToHex enc b.length = some b) := by
  intro h
  obtain ⟨enc, he, _⟩ := h [] (by simp)
  simp [binaryToHex] at he

/-- C5 (amended): for every nonempty byte sequence `b`, `binaryToHex`
succeeds and returns the hex-ASCII encoding mapping each byte `v` to
the digit characters `toHexChar (v >> 4)` and `toHexChar (v & 0xF)`,
where `toHexChar v = v + 48` for `v < 10` and `v + 55` (an uppercase
letter) otherwise; the encoding has length exactly `2 * len b`; and
`asciiToHex` decodes the encoding back to `b`. -/
theorem binaryToHex_asciiToHex_roundtrip (b : List Nat) (hne : b ≠ [])
    (hb : ∀ x ∈ b, x < 256) :
    binaryToHex b (b.length : Int) =
      .ok (some (b.flatMap fun v => [toHexChar (v >>> 4), toHexChar (v &&& 15)])) ∧
    (b.flatMap fun v => [toHexChar (v >>> 4), toHexChar (v &&& 15)]).length =
      2 * b.length ∧
    asciiToHex (b.flatMap fun v => [toHexChar (v >>> 4), toHexChar (v &&& 15)])
      b.length = some b := by
  have hpos : 0 < b.length := List.length_pos.mpr hne
  have hlen2 := flatMap_hex_length b
  refine ⟨?_, hlen2, ?_⟩
  · unfold binaryToHex
    have hg1 : ¬ ((b.length : Int) ≤ 0 ∨ b.isEmpty = true) := by
      rintro (h1 | h2)
      · omega
      · rw [List.isEmpty_iff] at h2
        exact hne h2
    rw [if_neg hg1, if_neg (by omega : ¬ ((b.length : Int) < (b.length : Int))),
      Int.toNat_natCast, List.take_length, binHexBytes_ok b hb]
  · unfold asciiToHex
    have hne2 : (b.flatMap fun v => [toHexChar (v >>> 4), toHexChar (v &&& 15)]) ≠ [] := by
      intro e
      have he := congrArg List.length e
      rw [hlen2, List.length_nil] at he
      omega
    have hg2 : ¬ (b.length = 0 ∨
        (b.flatMap fun v => [toHexChar (v >>> 4), toHexChar (v &&& 15)]).isEmpty = true ∨
        (b.flatMap fun v => [toHexChar (v >>> 4), toHexChar (v &&& 15)]).length <
          b.length * 2) := by
      rintro (h1 | h2 | h3)
      · omega
      · rw [List.isEmpty_iff] at h2
        exact hne2 h2
      · omega
    rw [if_neg hg2, List.take_of_length_le (by omega), hexPairs_encode b hb]

/-- Witness for the amended C5 at `b = [171]`: the encoding is the
uppercase pair `AB` (`[65, 66]`) and it decodes back to `[171]`. -/
theorem binaryToHex_asciiToHex_roundtrip_witness :
    ([171] : List Nat) ≠ [] ∧ binaryToHex [171] 1 = .ok (some [65, 66]) ∧
    asciiToHex [65, 66] 1 = some [171] := by
  have h := binaryToHex_asciiToHex_roundtrip [171] (by decide) (by decide)
  have e1 : (([171] : List Nat).flatMap
      fun v => [toHexChar (v >>> 4), toHexChar (v &&& 15)]) = [65, 66] := by decide
  have h1 := h.1
  have h3 := h.2.2
  rw [e1] at h1 h3
  exact ⟨by decide, h1, h3⟩

/-- C6 counterexample: the claim says inputs with enough length and
only hex-digit consumed characters never fail, but with
`expectedByteLen = 0` every input is "valid" (no characters are
consumed) and `asciiToHex` nevertheless returns its guarded failure. -/
theorem asciiToHex_fails_on_zero_length :
    ¬ (∀ (source : List Nat) (len : Nat), len * 2 ≤ source.length →
        (∀ i, i < len * 2 → isHexDigitByte (source.getD i 0) = true) →
        (asciiToHex source len).isSome = true) := by
  intro h
  have h2 := h [48, 48] 0 (by decide) (by omega)
  simp [asciiToHex] at h2

/-- C6 (amended): `asciiToHex` fails (returning `None`, with no partial
output buffer) whenever the input is shorter than `expectedByteLen * 2`
or any consumed character is not a hex digit; and every valid input
with `expectedByteLen ≥ 1` succeeds, producing exactly
`expectedByteLen` decoded bytes (the degenerate `expectedByteLen = 0`
call fails by the guard, which is the sole correction to the claim). -/
theorem asciiToHex_validation :
    (∀ (source : List Nat) (len : Nat), source.length < len * 2 →
      asciiToHex source len = none) ∧
    (∀ (source : List Nat) (len i : Nat), i < len * 2 →
      isHexDigitByte (source.getD i 0) = false →
      asciiToHex source len = none) ∧
    (∀ (source : List Nat) (len : Nat), 1 ≤ len → len * 2 ≤ source.length →
      (∀ i, i < len * 2 → isHexDigitByte (source.getD i 0) = true) →
      ∃ out, asciiToHex source len = some out ∧ out.length = len) := by
  refine ⟨?_, ?_, ?_⟩
  · intro source len hshort
    unfold asciiToHex
    rw [if_pos (Or.inr (Or.inr hshort))]
  · intro source len i hi hbad
    by_cases hshort : source.length < len * 2
    · unfold asciiToHex
      rw [if_pos (Or.inr (Or.inr hshort))]
    · unfold asciiToHex
      have hlen0 : ¬ len = 0 := by omega
      have hne : source.isEmpty = false := by
        rw [List.isEmpty_eq_false_iff_exists_mem]
        rcases source with _ | ⟨a, t⟩
        · simp at hshort
          omega
        · exact ⟨a, by simp⟩
      rw [if_neg (by simp [hlen0, hne, hshort])]
      have htl : (source.take (len * 2)).length = 2 * len := by
        rw [List.length_take]
        omega
      have hgd : (source.take (len * 2)).getD i 0 = source.getD i 0 := by
        rw [List.getD_eq_getElem?_getD, List.getD_eq_getElem?_getD,
          List.getElem?_take, if_pos hi]
      exact hexPairs_invalid len (source.take (len * 2)) htl i (by omega)
        (by rw [hgd]; exact hbad)
  · intro source len hone hlong hvalid
    unfold asciiToHex
    have hlen0 : ¬ len = 0 := by omega
    have hne : source.isEmpty = false := by
      rw [List.isEmpty_eq_false_iff_exists_mem]
      rcases source with _ | ⟨a, t⟩
      · simp at hlong
        omega
      · exact ⟨a, by simp⟩
    rw [if_neg (by simp [hlen0, hne]; omega)]
    have htl : (source.take (len * 2)).length = 2 * len := by
      rw [List.length_take]
      omega
    refine hexPairs_valid len (source.take (len * 2)) htl (fun i hi => ?_)
    have hi2 : i < len * 2 := by omega
    have hgd : (source.take (len * 2)).getD i 0 = source.getD i 0 := by
      rw [List.getD_eq_getElem?_getD, List.getD_eq_getElem?_getD,
        List.getElem?_take, if_pos hi2]
    rw [hgd]
    exact hvalid i hi2

/-- Witness for the amended C6: an input containing the non-hex byte
`G` (71) is rejected, and a valid hex input of the expected length
decodes successfully. -/
theorem asciiToHex_validation_witness :
    asciiToHex [48, 71, 48, 48] 2 = none ∧
    (asciiToHex [48, 57] 1).isSome = true := by
  constructor
  · exact asciiToHex_validation.2.1 [48, 71, 48, 48] 2 1 (by decide) (by decide)
  · obtain ⟨out, ho, _⟩ := asciiToHex_validation.2.2 [48, 57] 1 (by decide)
      (by decide) (by decide)
    rw [ho]
    rfl

/-! ### C4: reassembly behaviour of read_response -/

/-- The stop condition of the accumulation loop of `read_response`:
first byte of the chunk not `0x3F`, elapsed time beyond the timeout, or
a short chunk. -/
def stopCond (timeout : Nat) (e : List Nat × Nat) : Prop :=
  e.1.headD 0 ≠ 63 ∨ timeout < e.2 ∨ e.1.length < 64

instance (timeout : Nat) (e : List Nat × Nat) : Decidable (stopCond timeout e) := by
  unfold stopCond
  infer_instance

theorem read_response_go_spec (timeout : Nat) :
    ∀ (events : List (List Nat × Nat)) (acc : List Nat),
      (∀ e ∈ events, e.1 ≠ []) →
      (∀ i, (hi : i < events.length) →
        stopCond timeout (events.getD i ([], 0)) →
        (∀ j, j < i → ¬ stopCond timeout (events.getD j ([], 0))) →
        read_response_go timeout events acc =
          .ok (some (acc ++ ((events.take (i + 1)).map Prod.fst).flatten))) ∧
      ((∀ i, i < events.length → ¬ stopCond timeout (events.getD i ([], 0))) →
        read_response_go timeout events acc = .ok none) := by
  intro events
  induction events with
  | nil =>
    intro acc _
    exact ⟨fun i hi => by simp at hi, fun _ => rfl⟩
  | cons e rest ih =>
    intro acc hne
    obtain ⟨chunk, t⟩ := e
    have hchunk : chunk ≠ [] := hne (chunk, t) (by simp)
    have hbody : read_response_go timeout ((chunk, t) :: rest) acc =
        if chunk.headD 0 ≠ 63 ∨ timeout < t then
          .ok (if (acc ++ chunk).isEmpty then none else some (acc ++ chunk))
        else if chunk.length < 64 then
          .ok (if (acc ++ chunk).isEmpty then none else some (acc ++ chunk))
        else read_response_go timeout rest (acc ++ chunk) := by
      simp only [read_response_go]
      rw [if_neg (by simp [List.isEmpty_iff, hchunk])]
    have hacc : (acc ++ chunk).isEmpty = false := by
      simp [List.isEmpty_iff, hchunk]
    constructor
    · intro i hi hstop hbefore
      cases i with
      | zero =>
        rw [hbody]
        have : stopCond timeout (chunk, t) := by simpa using hstop
        rcases this with h1 | h2 | h3
        · rw [if_pos (Or.inl h1), hacc]
          simp
        · rw [if_pos (Or.inr h2), hacc]
          simp
        · by_cases hfirst : chunk.headD 0 ≠ 63 ∨ timeout < t
          · rw [if_pos hfirst, hacc]
            simp
          · rw [if_neg hfirst, if_pos h3, hacc]
            simp
      | succ i =>
        have hnofirst : ¬ stopCond timeout (chunk, t) := by
          simpa using hbefore 0 (by omega)
        rw [hbody, if_neg (by unfold stopCond at hnofirst; tauto),
          if_neg (by unfold stopCond at hnofirst; tauto)]
        have hrec := ((ih (acc ++ chunk) (fun x hx => hne x (by simp [hx]))).1 i
          (by simpa using hi) (by simpa using hstop)
          (fun j hj => by simpa using hbefore (j + 1) (by omega)))
        rw [hrec]
        simp [List.append_assoc]
    · intro hnostop
      have hnofirst : ¬ stopCond timeout (chunk, t) := by
        simpa using hnostop 0 (by simp)
      rw [hbody, if_neg (by unfold stopCond at hnofirst; tauto),
        if_neg (by unfold stopCond at hnofirst; tauto)]
      exact (ih (acc ++ chunk) (fun x hx => hne x (by simp [hx]))).2
        (fun i hi => by simpa using hnostop (i + 1) (by simpa using hi))

/-- C4 counterexample: the claim says `None` is returned only in the
zero-bytes-received case, but when a `device.read` itself times out
(exhausted oracle) after a full continuation chunk was already
accumulated, `read_response` catches the USB timeout error and returns
`None` even though 64 bytes were received. -/
theorem read_response_not_only_empty_none :
    ¬ (∀ (events : List (List Nat × Nat)) (timeout : Nat),
        (∀ e ∈ events, e.1 ≠ []) →
        read_response events timeout = .ok none → events = []) := by
  intro h
  have h2 := h [(63 :: List.replicate 63 0, 100)] 2000 (by decide) (by rfl)
  simp at h2

/-- C4 (amended): run against a read-event oracle of nonempty chunks,
`read_response` stops exactly at the first chunk whose first byte is
not `0x3F`, or that arrives after the timeout has elapsed, or that is
shorter than 64 bytes, returning the concatenation of all chunks read
so far in read order; if no chunk satisfies a stop condition the next
read times out and the call returns `None` — which therefore occurs
both when zero bytes were received and when a frame was cut off
mid-continuation (the latter being the correction to the claim). -/
theorem read_response_spec (events : List (List Nat × Nat)) (timeout : Nat)
    (hne : ∀ e ∈ events, e.1 ≠ []) :
    (∀ i, (hi : i < events.length) →
      stopCond timeout (events.getD i ([], 0)) →
      (∀ j, j < i → ¬ stopCond timeout (events.getD j ([], 0))) →
      read_response events timeout =
        .ok (some (((events.take (i + 1)).map Prod.fst).flatten))) ∧
    ((∀ i, i < events.length → ¬ stopCond timeout (events.getD i ([], 0))) →
      read_response events timeout = .ok none) := by
  have h := read_response_go_spec timeout events [] hne
  constructor
  · intro i hi hstop hbefore
    have := h.1 i hi hstop hbefore
    rw [read_response, this]
    simp
  · intro hnostop
    rw [read_response, h.2 hnostop]

/-- Witness for the amended C4: a single short chunk with a non-`0x3F`
first byte stops the loop at once and is returned whole. -/
theorem read_response_spec_witness :
    read_response [([5, 5], 0)] 2000 = .ok (some [5, 5]) := by
  have h := (read_response_spec [([5, 5], 0)] 2000 (by decide)).1 0 (by decide)
    (by decide) (fun j hj => by omega)
  simpa using h

/-! ### C7: the frame length-prefix invariant -/

theorem pySet_nat_inv {l l' : List Nat} {i : Nat} {v : Int}
    (h : pySet l (i : Int) v = .ok l') :
    l' = l.set i v.toNat ∧ i < l.length ∧ 0 ≤ v ∧ v < 256 := by
  unfold pySet at h
  by_cases hv : (0 : Int) ≤ v ∧ v < 256
  · rw [if_pos hv, pyIdx_natCast] at h
    by_cases hi : i < l.length
    · rw [if_pos hi] at h
      cases h
      exact ⟨rfl, hi, hv.1, hv.2⟩
    · rw [if_neg hi] at h
      cases h
  · rw [if_neg hv] at h
    cases h

theorem headD_set_succ (l : List Nat) (i v : Nat) :
    (l.set (i + 1) v).headD 0 = l.headD 0 := by
  cases l <;> rfl

theorem pySet_int_inv {l l' : List Nat} {i v : Int} (hi : 0 ≤ i)
    (h : pySet l i v = .ok l') :
    l' = l.set i.toNat v.toNat ∧ i.toNat < l.length ∧ 0 ≤ v ∧ v < 256 := by
  unfold pySet pyIdx at h
  by_cases hv : (0 : Int) ≤ v ∧ v < 256
  · rw [if_pos hv, if_neg (by omega : ¬ i < 0)] at h
    by_cases hil : i < (l.length : Int)
    · rw [if_pos hil] at h
      cases h
      exact ⟨rfl, by omega, hv.1, hv.2⟩
    · rw [if_neg hil] at h
      cases h
  · rw [if_neg hv] at h
    cases h

theorem headD_set_pos (l : List Nat) (i v : Nat) (hi : 1 ≤ i) :
    (l.set i v).headD 0 = l.headD 0 := by
  cases l with
  | nil => rfl
  | cons a t =>
    cases i with
    | zero => omega
    | succ i => rfl

theorem headD_append_take (l : List Nat) (a : Nat) (v w : List Nat)
    (ha : 1 ≤ a) (hl : l ≠ []) :
    (l.take a ++ v ++ w).headD 0 = l.headD 0 := by
  cases l with
  | nil => exact absurd rfl hl
  | cons x t =>
    rw [List.take_cons (by omega)]
    rfl

theorem take_after_set_zero {c c' : List Nat} {v : Int} (n : Nat)
    (hset : pySet c 0 v = .ok c') (hn : 0 < n) (hcl : n ≤ c.length) :
    (c'.take n).headD 0 = v.toNat ∧ (c'.take n).length = n := by
  obtain ⟨hc', _, _, hpos⟩ := pySet_zero_inv hset
  subst hc'
  refine ⟨?_, ?_⟩
  · rw [headD_take _ _ hn, headD_set_zero _ _ hpos]
  · rw [List.length_take, List.length_set]
    omega

set_option maxRecDepth 20000 in
/-- C7 counterexample: `uhf_write` with `wlen = 31` and an empty
`pData` shrinks the 256-byte command `bytearray` below
`command_length` by the slice assignment
`command[10:10+wlen*4] = pData[:wlen*4]`, so the transmitted frame
`command[:command_length]` has 132 bytes but carries length prefix
133: the invariant `frame[0] == len(frame) - 1` fails on a frame the
code builds and sends. -/
theorem uhf_write_frame_violates_invariant :
    ¬ (∀ f : List Nat, uhf_write_frame 1 0 31 [] = .ok f →
        f.headD 0 + 1 = f.length) := by
  intro h
  have h2 := h (133 :: 2 :: 65 :: 87 :: 49 :: 44 :: 48 :: 44 :: 86 :: 44 ::
    List.replicate 122 0) (by rfl)
  simp [List.length_replicate] at h2

/-- C7 (amended): every command frame built and sent by `uhf_read`
(both address branches), `uhf_action`, `uhf_setAccessPassword`,
`uhf_lockMemory` and `uhf_inventory` (both the initial frame and the
follow-up frame with fourth byte 145) satisfies
`frame[0] == len(frame) - 1`; for `uhf_write` the invariant holds
provided the caller's buffer supplies the full payload
(`wlen*4 <= len(pData)`) — when `pData` is shorter, the slice
assignment can shrink the command buffer below `command_length` and
the sent frame's length prefix overshoots its actual length. -/
theorem frames_length_prefixed :
    (∀ infoType address rlen : Nat, ∀ f : List Nat,
      uhf_read_frame infoType address rlen = .ok f → f.headD 0 + 1 = f.length) ∧
    (∀ infoType address wlen : Nat, ∀ pData f : List Nat, wlen * 4 ≤ pData.length →
      uhf_write_frame infoType address wlen pData = .ok f → f.headD 0 + 1 = f.length) ∧
    (∀ action time : Nat, ∀ f : List Nat,
      uhf_action_frame action time = .ok f → f.headD 0 + 1 = f.length) ∧
    (∀ pw : List Nat, pw.length = 8 → ∀ f : List Nat,
      uhf_setAccessPassword_frame pw = .ok f → f.headD 0 + 1 = f.length) ∧
    (∀ ls : List Nat, ls.length = 6 → ∀ f : List Nat,
      uhf_lockMemory_frame ls = .ok f → f.headD 0 + 1 = f.length) ∧
    uhf_inventory_frame1.headD 0 + 1 = uhf_inventory_frame1.length ∧
    uhf_inventory_frame2.headD 0 + 1 = uhf_inventory_frame2.length := by
  refine ⟨?_, ?_, ?_, ?_, ?_, rfl, rfl⟩
  · -- uhf_read
    intro infoType address rlen f h
    unfold uhf_read_frame at h
    obtain ⟨c1, hc1, h⟩ := bindOk h
    obtain ⟨c2, hc2, h⟩ := bindOk h
    obtain ⟨c3, hc3, h⟩ := bindOk h
    obtain ⟨c4, hc4, h⟩ := bindOk h
    have l1 : c1.length = 256 := by
      rw [pySet_ok_length hc1, List.length_replicate]
    have l2 : c2.length = 256 := by
      rw [pySliceAssign_ok_length hc2]
      simp [l1]
    have l3 : c3.length = 256 := by rw [pySet_ok_length hc3, l2]
    have l4 : c4.length = 256 := by rw [pySet_ok_length hc4, l3]
    by_cases haddr : 16 ≤ address
    · rw [if_pos haddr] at h
      obtain ⟨c5, hc5, h⟩ := bindOk h
      obtain ⟨c6, hc6, h⟩ := bindOk h
      obtain ⟨c7, hc7, h⟩ := bindOk h
      obtain ⟨c8, hc8, h⟩ := bindOk h
      obtain ⟨c9, hc9, h⟩ := bindOk h
      have l8 : c8.length = 256 := by
        rw [pySet_ok_length hc8, pySet_ok_length hc7, pySet_ok_length hc6,
          pySet_ok_length hc5, l4]
      have hf : f = c9.take 10 := by
        cases h
        rfl
      obtain ⟨hh, hl⟩ := take_after_set_zero 10 hc9 (by omega) (by omega)
      rw [hf, hh, hl]
      rfl
    · rw [if_neg haddr] at h
      obtain ⟨c5, hc5, h⟩ := bindOk h
      obtain ⟨c6, hc6, h⟩ := bindOk h
      obtain ⟨c7, hc7, h⟩ := bindOk h
      obtain ⟨c8, hc8, h⟩ := bindOk h
      have l7 : c7.length = 256 := by
        rw [pySet_ok_length hc7, pySet_ok_length hc6, pySet_ok_length hc5, l4]
      have hf : f = c8.take 9 := by
        cases h
        rfl
      obtain ⟨hh, hl⟩ := take_after_set_zero 9 hc8 (by omega) (by omega)
      rw [hf, hh, hl]
      rfl
  · -- uhf_write
    intro infoType address wlen pData f hpd h
    unfold uhf_write_frame at h
    obtain ⟨c1, hc1, h⟩ := bindOk h
    obtain ⟨c2, hc2, h⟩ := bindOk h
    obtain ⟨c3, hc3, h⟩ := bindOk h
    obtain ⟨c4, hc4, h⟩ := bindOk h
    have l1 : c1.length = 256 := by
      rw [pySet_ok_length hc1, List.length_replicate]
    have l2 : c2.length = 256 := by
      rw [pySliceAssign_ok_length hc2]
      simp [l1]
    have l3 : c3.length = 256 := by rw [pySet_ok_length hc3, l2]
    have l4 : c4.length = 256 := by rw [pySet_ok_length hc4, l3]
    have htake : (pData.take (wlen * 4)).length = wlen * 4 := by
      rw [List.length_take]
      omega
    by_cases haddr : 16 ≤ address
    · rw [if_pos haddr] at h
      obtain ⟨c5, hc5, h⟩ := bindOk h
      obtain ⟨c6, hc6, h⟩ := bindOk h
      obtain ⟨c7, hc7, h⟩ := bindOk h
      obtain ⟨c8, hc8, h⟩ := bindOk h
      obtain ⟨c9, hc9, h⟩ := bindOk h
      obtain ⟨c10, hc10, h⟩ := bindOk h
      obtain ⟨c11, hc11, h⟩ := bindOk h
      have l9 : c9.length = 256 := by
        rw [pySet_ok_length hc9, pySet_ok_length hc8, pySet_ok_length hc7,
          pySet_ok_length hc6, pySet_ok_length hc5, l4]
      have hv := (pySet_zero_inv hc11).2.2.1
      have hw : wlen * 4 ≤ 245 := by omega
      have l10 : c10.length = 256 := by
        rw [pySliceAssign_ok_length hc10, htake, l9]
        omega
      have hf : f = c11.take (11 + wlen * 4) := by
        cases h
        rfl
      obtain ⟨hh, hl⟩ := take_after_set_zero (11 + wlen * 4) hc11 (by omega) (by omega)
      rw [hf, hh, hl]
      omega
    · rw [if_neg haddr] at h
      obtain ⟨c5, hc5, h⟩ := bindOk h
      obtain ⟨c6, hc6, h⟩ := bindOk h
      obtain ⟨c7, hc7, h⟩ := bindOk h
      obtain ⟨c8, hc8, h⟩ := bindOk h
      obtain ⟨c9, hc9, h⟩ := bindOk h
      obtain ⟨c10, hc10, h⟩ := bindOk h
      have l8 : c8.length = 256 := by
        rw [pySet_ok_length hc8, pySet_ok_length hc7, pySet_ok_length hc6,
          pySet_ok_length hc5, l4]
      have hv := (pySet_zero_inv hc10).2.2.1
      have hw : wlen * 4 ≤ 246 := by omega
      have l9 : c9.length = 256 := by
        rw [pySliceAssign_ok_length hc9, htake, l8]
        omega
      have hf : f = c10.take (10 + wlen * 4) := by
        cases h
        rfl
      obtain ⟨hh, hl⟩ := take_after_set_zero (10 + wlen * 4) hc10 (by omega) (by omega)
      rw [hf, hh, hl]
      omega
  · -- uhf_action
    intro action time f h
    unfold uhf_action_frame mkBytearray at h
    split at h
    · cases h
      rfl
    · cases h
  · -- uhf_setAccessPassword
    intro pw hpw f h
    unfold uhf_setAccessPassword_frame at h
    obtain ⟨c1, hc1, h⟩ := bindOk h
    obtain ⟨c2, hc2, h⟩ := bindOk h
    obtain ⟨c3, hc3, h⟩ := bindOk h
    obtain ⟨c4, hc4, h⟩ := bindOk h
    obtain ⟨c5, hc5, h⟩ := bindOk h
    have hf : f = c5 := by
      cases h
      rfl
    have hl1 : c1.length = 12 := by
      rw [pySet_ok_length hc1, List.length_replicate]
    have hd1 : c1.headD 0 = 11 := by
      obtain ⟨e, _, _, _⟩ := pySet_zero_inv hc1
      subst e
      rw [headD_set_zero _ _ (by simp)]
      rfl
    have hl2 : c2.length = 12 := by rw [pySet_ok_length hc2, hl1]
    have hd2 : c2.headD 0 = 11 := by
      obtain ⟨e, _, _, _⟩ := pySet_int_inv (by omega) hc2
      subst e
      rw [headD_set_pos _ _ _ (by norm_num), hd1]
    have hl3 : c3.length = 12 := by
      rw [pySliceAssign_ok_length hc3, hl2]
      simp
    have hd3 : c3.headD 0 = 11 := by
      rw [pySliceAssign_ok_inv hc3,
        headD_append_take _ _ _ _ (by rw [hl2]; norm_num)
          (by intro e; rw [e] at hl2; simp at hl2), hd2]
    have hl4 : c4.length = 12 := by
      rw [pySliceAssign_ok_length hc4, hl3, List.length_take]
      omega
    have hd4 : c4.headD 0 = 11 := by
      rw [pySliceAssign_ok_inv hc4,
        headD_append_take _ _ _ _ (by rw [hl3]; norm_num)
          (by intro e; rw [e] at hl3; simp at hl3), hd3]
    have hl5 : c5.length = 12 := by
      rw [pySliceAssign_ok_length hc5, hl4, List.length_take, List.length_drop]
      omega
    have hd5 : c5.headD 0 = 11 := by
      rw [pySliceAssign_ok_inv hc5,
        headD_append_take _ _ _ _ (by rw [hl4]; norm_num)
          (by intro e; rw [e] at hl4; simp at hl4), hd4]
    rw [hf, hd5, hl5]
  · -- uhf_lockMemory
    intro ls hls f h
    unfold uhf_lockMemory_frame at h
    obtain ⟨c1, hc1, h⟩ := bindOk h
    obtain ⟨c2, hc2, h⟩ := bindOk h
    obtain ⟨c3, hc3, h⟩ := bindOk h
    obtain ⟨c4, hc4, h⟩ := bindOk h
    have hf : f = c4 := by
      cases h
      rfl
    have hl1 : c1.length = 11 := by
      rw [pySet_ok_length hc1, List.length_replicate]
    have hd1 : c1.headD 0 = 10 := by
      obtain ⟨e, _, _, _⟩ := pySet_zero_inv hc1
      subst e
      rw [headD_set_zero _ _ (by simp)]
      rfl
    have hl2 : c2.length = 11 := by rw [pySet_ok_length hc2, hl1]
    have hd2 : c2.headD 0 = 10 := by
      obtain ⟨e, _, _, _⟩ := pySet_int_inv (by omega) hc2
      subst e
      rw [headD_set_pos _ _ _ (by norm_num), hd1]
    have hl3 : c3.length = 11 := by
      rw [pySliceAssign_ok_length hc3, hl2]
      simp
    have hd3 : c3.headD 0 = 10 := by
      rw [pySliceAssign_ok_inv hc3,
        headD_append_take _ _ _ _ (by rw [hl2]; norm_num)
          (by intro e; rw [e] at hl2; simp at hl2), hd2]
    have hl4 : c4.length = 11 := by
      rw [pySliceAssign_ok_length hc4, hl3, hls]
      omega
    have hd4 : c4.headD 0 = 10 := by
      rw [pySliceAssign_ok_inv hc4,
        headD_append_take _ _ _ _ (by rw [hl3]; norm_num)
          (by intro e; rw [e] at hl3; simp at hl3), hd3]
    rw [hf, hd4, hl4]

set_option maxRecDepth 20000 in
/-- Witness for the amended C7: a write frame with a fully supplied
4-byte payload carries length prefix 13 and has 14 bytes. -/
theorem frames_length_prefixed_witness :
    1 * 4 ≤ ([53, 53, 53, 53] : List Nat).length ∧
    ([13, 2, 65, 87, 49, 44, 48, 44, 49, 44, 53, 53, 53, 53] : List Nat).headD 0 + 1 =
      ([13, 2, 65, 87, 49, 44, 48, 44, 49, 44, 53, 53, 53, 53] : List Nat).length := by
  refine ⟨by decide, ?_⟩
  exact frames_length_prefixed.2.1 1 0 1 [53, 53, 53, 53]
    [13, 2, 65, 87, 49, 44, 48, 44, 49, 44, 53, 53, 53, 53] (by decide) (by rfl)

/-! ### C8 and C9: uhf_read -/

theorem readFill_ok_spec (resp : List Nat) :
    ∀ (n i : Nat) (pD pD' : List Nat),
      readFill resp n i pD = .ok pD' →
      pD'.length = pD.length ∧
      (∀ j, j < i → pD'.getD j 0 = pD.getD j 0) ∧
      (∀ j, i + n ≤ j → pD'.getD j 0 = pD.getD j 0) ∧
      (∀ j, i ≤ j → j < i + n → pD'.getD j 0 = (fillVal resp j).toNat) := by
  intro n
  induction n with
  | zero =>
    intro i pD pD' h
    cases h
    exact ⟨rfl, fun j _ => rfl, fun j _ => rfl, fun j hij hjdl => by omega⟩
  | succ n ih =>
    intro i pD pD' h
    rw [readFill] at h
    cases hset : pySet pD (i : Int) (fillVal resp i) with
    | error e =>
      rw [hset] at h
      cases h
    | ok pD1 =>
      rw [hset] at h
      obtain ⟨e1, hi1, _, _⟩ := pySet_nat_inv hset
      obtain ⟨hL, hlt, hge, hrest⟩ := ih (i + 1) pD1 pD' h
      subst e1
      refine ⟨by rw [hL, List.length_set], ?_, ?_, ?_⟩
      · intro j hj
        rw [hlt j (by omega), getD_set_ne _ _ (by omega)]
      · intro j hj
        rw [hge j (by omega), getD_set_ne _ _ (by omega)]
      · intro j hij hjdl
        by_cases hji : j = i
        · subst hji
          rw [hlt j (by omega), getD_set_self _ _ _ hi1]
        · exact hrest j (by omega) (by omega)

theorem fillVal_toNat (resp : List Nat) (j : Nat) :
    (fillVal resp j).toNat = if 5 + j < resp.length then resp.getD (5 + j) 0 else 0 := by
  unfold fillVal
  split
  · rw [Int.toNat_natCast]
  · rfl

/-- C9: on every successful `uhf_read` call the caller's buffer is
written only at indices `0 .. min(rlen*4, len(pData)) - 1` — never past
the end of `pData` even when `rlen*4` exceeds the buffer size — with
`response[5+i]` when the response carries that byte and `0` otherwise;
every other position of `pData` is unchanged (and the buffer keeps its
length). -/
theorem uhf_read_success_writes (infoType address rlen : Nat)
    (pData resp pD' : List Nat) (send : SendOutcome)
    (h : uhf_read infoType address rlen pData send (.resp (some resp)) = (0, pD')) :
    pD'.length = pData.length ∧
    (∀ i, i < min (rlen * 4) pData.length →
      pD'.getD i 0 = if 5 + i < resp.length then resp.getD (5 + i) 0 else 0) ∧
    (∀ i, min (rlen * 4) pData.length ≤ i → pD'.getD i 0 = pData.getD i 0) := by
  unfold uhf_read at h
  by_cases hit : infoType ∉ [1, 2, 3, 4]
  · rw [if_pos hit] at h
    simp at h
  · rw [if_neg hit] at h
    cases hfr : uhf_read_frame infoType address rlen with
    | error e =>
      rw [hfr] at h
      simp at h
    | ok fr =>
      rw [hfr] at h
      cases send with
      | sendUsbErr => simp at h
      | sendOtherExc => simp at h
      | sendOk =>
        simp only [Option.getD_some] at h
        by_cases hcond : isTruthy (some resp) = true ∧ 6 ≤ resp.length ∧
            resp.getD 4 0 = 82
        · rw [if_pos hcond] at h
          cases hrf : readFill resp (min (rlen * 4) pData.length) 0 pData with
          | error pD1 =>
            rw [hrf] at h
            simp at h
          | ok pD1 =>
            rw [hrf] at h
            obtain ⟨he0, he1⟩ := Prod.mk.injEq .. ▸ h
            obtain ⟨hL, _, hge, hrest⟩ :=
              readFill_ok_spec resp (min (rlen * 4) pData.length) 0 pData pD1 hrf
            subst he1
            refine ⟨hL, ?_, ?_⟩
            · intro i hi
              rw [hrest i (by omega) (by omega), fillVal_toNat]
            · intro i hi
              exact hge i (by omega)
        · rw [if_neg hcond] at h
          simp at h

set_option maxRecDepth 100000 in
/-- Witness for C9: reading one word (`rlen = 1`) into a 6-byte buffer
from a 7-byte response writes bytes 5 and 6 of the response, pads the
rest of the 4-byte window with zeros and leaves the tail untouched. -/
theorem uhf_read_success_writes_witness :
    (uhf_read 1 0 1 [9, 9, 9, 9, 9, 9] .sendOk
      (.resp (some [8, 8, 8, 8, 82, 7, 7]))) = (0, [7, 7, 0, 0, 9, 9]) ∧
    ([7, 7, 0, 0, 9, 9] : List Nat).length = ([9, 9, 9, 9, 9, 9] : List Nat).length ∧
    ([7, 7, 0, 0, 9, 9] : List Nat).getD 5 0 = ([9, 9, 9, 9, 9, 9] : List Nat).getD 5 0 := by
  have hcall : (uhf_read 1 0 1 [9, 9, 9, 9, 9, 9] .sendOk
      (.resp (some [8, 8, 8, 8, 82, 7, 7]))) = (0, [7, 7, 0, 0, 9, 9]) := by rfl
  have h := uhf_read_success_writes 1 0 1 [9, 9, 9, 9, 9, 9] [8, 8, 8, 8, 82, 7, 7]
    [7, 7, 0, 0, 9, 9] .sendOk hcall
  exact ⟨hcall, h.1, h.2.2 5 (by decide)⟩

set_option maxRecDepth 100000 in
/-- C8 counterexample: a `usb.core.USBError` raised by `device.write`
during `uhf_read`'s send — a transport-level exception — is caught
inside `send_command`, which returns `False`, and `uhf_read` then
returns `-6`, not the claimed `-13`. -/
theorem uhf_read_usb_error_not_minus13 :
    (uhf_read 1 0 1 [] .sendUsbErr (.resp none)).1 = -6 ∧
    ¬ ((uhf_read 1 0 1 [] .sendUsbErr (.resp none)).1 = -13) := by
  have h6 : (uhf_read 1 0 1 [] .sendUsbErr (.resp none)).1 = -6 := by rfl
  exact ⟨h6, by rw [h6]; decide⟩

/-- C8 (amended): with a valid `infoType` and a successfully built
frame, a `usb.core.USBError` during send or receive is absorbed by the
framing layer (`send_command` returns `False`, `read_response` returns
`None`) and `uhf_read` returns `-6`, the same code as for a missing
response (`read_response` returned `None`) or a malformed one (empty,
shorter than 6 bytes, or with `response[4] != ord('R')`); `-13` is
returned exactly for exceptions that escape into `uhf_read`'s own
handler (a non-`USBError` exception during send, an exception
propagating out of `read_response`, or an exception raised by the
payload-copy loop); and `-2` is returned exactly for an `infoType`
outside 1..4. -/
theorem uhf_read_error_codes (infoType address rlen : Nat) (pData fr : List Nat)
    (recv : RecvOutcome)
    (hit : infoType ∈ [1, 2, 3, 4])
    (hfr : uhf_read_frame infoType address rlen = .ok fr) :
    (uhf_read infoType address rlen pData .sendUsbErr recv).1 = -6 ∧
    (uhf_read infoType address rlen pData .sendOk (.resp none)).1 = -6 ∧
    (∀ resp : List Nat, (resp = [] ∨ resp.length < 6 ∨ resp.getD 4 0 ≠ 82) →
      (uhf_read infoType address rlen pData .sendOk (.resp (some resp))).1 = -6) ∧
    (uhf_read infoType address rlen pData .sendOtherExc recv).1 = -13 ∧
    (uhf_read infoType address rlen pData .sendOk .recvExc).1 = -13 ∧
    (∀ (send : SendOutcome) (r : RecvOutcome),
      (uhf_read infoType address rlen pData send r).1 = -13 →
      send = .sendOtherExc ∨ r = .recvExc ∨
      ∃ resp pD', r = .resp (some resp) ∧
        readFill resp (min (rlen * 4) pData.length) 0 pData = .error pD') ∧
    (∀ (send : SendOutcome) (r : RecvOutcome),
      (uhf_read infoType address rlen pData send r).1 ≠ -2) ∧
    (∀ (infoType' address' rlen' : Nat) (pD : List Nat), infoType' ∉ [1, 2, 3, 4] →
      ∀ (send : SendOutcome) (r : RecvOutcome),
      (uhf_read infoType' address' rlen' pD send r).1 = -2) := by
  have hit' : ¬ infoType ∉ [1, 2, 3, 4] := by simp [hit]
  refine ⟨?_, ?_, ?_, ?_, ?_, ?_, ?_, ?_⟩
  · unfold uhf_read
    rw [if_neg hit', hfr]
  · unfold uhf_read
    rw [if_neg hit', hfr]
    simp [isTruthy]
  · intro resp hbadr
    unfold uhf_read
    rw [if_neg hit', hfr]
    simp only []
    split
    · rename_i hcond
      exfalso
      simp only [isTruthy, Option.getD_some, Bool.not_eq_true', List.isEmpty_iff] at hcond
      rcases hbadr with h | h | h
      · rcases hcond with ⟨hne, -, -⟩
        rw [h] at hne
        simp [List.isEmpty_iff] at hne
      · exact absurd hcond.2.1 (by omega)
      · exact h hcond.2.2
    · rfl
  · unfold uhf_read
    rw [if_neg hit', hfr]
  · unfold uhf_read
    rw [if_neg hit', hfr]
  · intro send r h13
    unfold uhf_read at h13
    rw [if_neg hit', hfr] at h13
    cases send with
    | sendUsbErr => simp at h13
    | sendOtherExc => exact Or.inl rfl
    | sendOk =>
      cases r with
      | recvExc => exact Or.inr (Or.inl rfl)
      | resp r' =>
        simp only [] at h13
        split at h13
        · rename_i hcond
          cases hrf : readFill (r'.getD []) (min (rlen * 4) pData.length) 0 pData with
          | ok pD1 => rw [hrf] at h13; simp at h13
          | error pD1 =>
            rw [hrf] at h13
            cases r' with
            | none => simp [isTruthy] at hcond
            | some resp =>
              exact Or.inr (Or.inr ⟨resp, pD1, rfl, by simpa using hrf⟩)
        · simp at h13
  · intro send r
    unfold uhf_read
    rw [if_neg hit', hfr]
    cases send with
    | sendUsbErr => simp
    | sendOtherExc => simp
    | sendOk =>
      cases r with
      | recvExc => simp
      | resp r' =>
        simp only []
        split
        · cases hrf : readFill (r'.getD []) (min (rlen * 4) pData.length) 0 pData with
          | error pD1 => simp
          | ok pD1 => simp
        · simp
  · intro infoType' address' rlen' pD hbad send r
    unfold uhf_read
    rw [if_pos hbad]

set_option maxRecDepth 100000 in
/-- Witness for the amended C8 at concrete inputs: a `USBError` during
send, a missing response and a malformed (2-byte) response all yield
`-6`; a non-`USBError` exception during send yields `-13`; and an
invalid `infoType` yields `-2`. -/
theorem uhf_read_error_codes_witness :
    ((1 : Nat) ∈ [1, 2, 3, 4]) ∧
    (uhf_read 1 0 1 [] .sendUsbErr (.resp none)).1 = -6 ∧
    (uhf_read 1 0 1 [] .sendOk (.resp none)).1 = -6 ∧
    (uhf_read 1 0 1 [] .sendOk (.resp (some [8, 8]))).1 = -6 ∧
    (uhf_read 1 0 1 [] .sendOtherExc (.resp none)).1 = -13 ∧
    (uhf_read 5 0 1 [] .sendOk (.resp none)).1 = -2 := by
  have h := uhf_read_error_codes 1 0 1 [] [8, 2, 65, 82, 49, 44, 48, 44, 49]
    (.resp none) (by decide) (by rfl)
  exact ⟨by decide, h.1, h.2.1, h.2.2.1 [8, 8] (by decide), h.2.2.2.1,
    h.2.2.2.2.2.2.2 5 0 1 [] (by decide) .sendOk (.resp none)⟩

/-! ### C2, C3 and C10: the inventory session -/

theorem pySet_ok_int2 (l : List Nat) (i v : Int) (h0 : 0 ≤ i)
    (hi : i < (l.length : Int)) (hv0 : 0 ≤ v) (hv : v < 256) :
    pySet l i v = .ok (l.set i.toNat v.toNat) := by
  unfold pySet pyIdx
  rw [if_pos ⟨hv0, hv⟩, if_neg (by omega : ¬ i < 0), if_pos hi]

theorem hexFill_step_lit (hd : List Nat) (off : Nat) (n j idx : Nat) (pD : List Nat)
    (v : Nat) (hjl : j < hd.length) (hgd : hd.getD j 0 = v) (hv : v < 256)
    (hidx : idx = off + 2 + j) (hlt : idx < pD.length) :
    hexFill hd (off : Int) (n + 1) j pD =
      hexFill hd (off : Int) n (j + 1) (pD.set idx v) := by
  subst hidx
  simp only [hexFill]
  rw [if_pos hjl, hgd]
  rw [pySet_ok_int2 _ _ _ (by omega) (by omega) (by omega) (by omega)]
  rw [show (((off : Nat) : Int) + 2 + (j : Int)).toNat = off + 2 + j by omega,
    Int.toNat_natCast]

/-- One normal round of the inventory per-tag loop, for a response of
the shape required by the C2 scenario: first byte `a ≠ 4`, second byte
`160`, `response[5] = 6` (so `byte_count = 4` and the record spans 6
bytes), `lastByte = response[response[0] - 1]` in range, and enough
room left in the output buffer. -/
theorem invRound_normal (a c d e : Nat) (tl : List Nat) (pD : List Nat) (off : Nat)
    (ha4 : a ≠ 4) (ha1 : 1 ≤ a) (ha2 : a ≤ 6 + tl.length)
    (hb : ∀ x ∈ (a :: 160 :: c :: d :: e :: 6 :: tl : List Nat), x < 256)
    (hcap : off + 6 ≤ pD.length) :
    invRound (some (a :: 160 :: c :: d :: e :: 6 :: tl)) pD (off : Int) =
      .next
        ((((((pD.set off 5).set (off + 1)
            ((a :: 160 :: c :: d :: e :: 6 :: tl : List Nat).getD (a - 1) 0)).set (off + 2)
            (toHexChar (a >>> 4))).set (off + 3) (toHexChar (a &&& 15))).set (off + 4)
            65).set (off + 5) 48)
        ((off : Int) + 6) := by
  have h256a : a < 256 := hb a (by simp)
  have h256c : c < 256 := hb c (by simp)
  have h256d : d < 256 := hb d (by simp)
  have hka := hexCharKey a h256a
  have hkc := hexCharKey c h256c
  have hkd := hexCharKey d h256d
  have hlen : (a :: 160 :: c :: d :: e :: 6 :: tl : List Nat).length = 6 + tl.length := by
    simp only [List.length_cons]
    omega
  have hlb256 : (a :: 160 :: c :: d :: e :: 6 :: tl : List Nat).getD (a - 1) 0 < 256 :=
    hb _ (getD_mem _ _ (by omega))
  have hg1 : pyGet (a :: 160 :: c :: d :: e :: 6 :: tl) 1 = .ok 160 := by
    rw [pyGet_ok_int _ 1 (by omega) (by rw [hlen]; omega)]
    rfl
  have hg5 : pyGet (a :: 160 :: c :: d :: e :: 6 :: tl) 5 = .ok 6 := by
    rw [pyGet_ok_int _ 5 (by omega) (by rw [hlen]; omega)]
    rfl
  have hglb : pyGet (a :: 160 :: c :: d :: e :: 6 :: tl) ((a : Int) - 1) =
      .ok ((a :: 160 :: c :: d :: e :: 6 :: tl : List Nat).getD (a - 1) 0) := by
    rw [pyGet_ok_int _ _ (by omega) (by rw [hlen]; omega)]
    rw [show ((a : Int) - 1).toNat = a - 1 by omega]
  have hset1 : pySet pD (off : Int) 5 = .ok (pD.set off 5) := by
    rw [pySet_ok_int2 _ _ _ (by omega) (by omega) (by omega) (by omega)]
    rw [Int.toNat_natCast]
    rfl
  have hset2 : pySet (pD.set off 5) ((off : Int) + 1)
      (((a :: 160 :: c :: d :: e :: 6 :: tl : List Nat).getD (a - 1) 0 : Nat) : Int) =
      .ok ((pD.set off 5).set (off + 1)
        ((a :: 160 :: c :: d :: e :: 6 :: tl : List Nat).getD (a - 1) 0)) := by
    rw [pySet_ok_int2 _ _ _ (by omega) (by rw [List.length_set]; omega) (by omega)
      (by omega)]
    rw [show ((off : Int) + 1).toNat = off + 1 by omega, Int.toNat_natCast]
  have hbth : binaryToHex (a :: 160 :: c :: d :: e :: 6 :: tl) 4 =
      .ok (some [toHexChar (a >>> 4), toHexChar (a &&& 15), 65, 48,
        toHexChar (c >>> 4), toHexChar (c &&& 15),
        toHexChar (d >>> 4), toHexChar (d &&& 15)]) := by
    unfold binaryToHex
    rw [if_neg (by simp), if_neg (by rw [hlen]; omega)]
    rw [show ((4 : Int).toNat) = 4 from rfl]
    rw [show (a :: 160 :: c :: d :: e :: 6 :: tl : List Nat).take 4 = [a, 160, c, d]
      from rfl]
    rw [binHexBytes_ok [a, 160, c, d] ?hbytes4]
    case hbytes4 =>
      intro x hx
      simp only [List.mem_cons, List.not_mem_nil, or_false] at hx
      rcases hx with rfl | rfl | rfl | rfl
      · exact h256a
      · omega
      · exact h256c
      · exact h256d
    rfl
  have hlpd2 : ((pD.set off 5).set (off + 1)
      ((a :: 160 :: c :: d :: e :: 6 :: tl : List Nat).getD (a - 1) 0)).length =
      pD.length := by
    rw [List.length_set, List.length_set]
  have hhf : hexFill [toHexChar (a >>> 4), toHexChar (a &&& 15), 65, 48,
      toHexChar (c >>> 4), toHexChar (c &&& 15),
      toHexChar (d >>> 4), toHexChar (d &&& 15)] (off : Int) 4 0
      ((pD.set off 5).set (off + 1)
        ((a :: 160 :: c :: d :: e :: 6 :: tl : List Nat).getD (a - 1) 0)) =
      .ok ((((((pD.set off 5).set (off + 1)
          ((a :: 160 :: c :: d :: e :: 6 :: tl : List Nat).getD (a - 1) 0)).set (off + 2)
          (toHexChar (a >>> 4))).set (off + 3) (toHexChar (a &&& 15))).set (off + 4)
          65).set (off + 5) 48) := by
    rw [hexFill_step_lit [toHexChar (a >>> 4), toHexChar (a &&& 15), 65, 48,
        toHexChar (c >>> 4), toHexChar (c &&& 15), toHexChar (d >>> 4), toHexChar (d &&& 15)] off 3 0 (off + 2) _ (toHexChar (a >>> 4)) (by simp) rfl
      hka.1 (by omega) (by rw [hlpd2]; omega)]
    rw [hexFill_step_lit [toHexChar (a >>> 4), toHexChar (a &&& 15), 65, 48,
        toHexChar (c >>> 4), toHexChar (c &&& 15), toHexChar (d >>> 4), toHexChar (d &&& 15)] off 2 1 (off + 3) _ (toHexChar (a &&& 15)) (by simp) rfl
      hka.2.1 (by omega) (by simp only [List.length_set, hlpd2]; omega)]
    rw [hexFill_step_lit [toHexChar (a >>> 4), toHexChar (a &&& 15), 65, 48,
        toHexChar (c >>> 4), toHexChar (c &&& 15), toHexChar (d >>> 4), toHexChar (d &&& 15)] off 1 2 (off + 4) _ 65 (by simp) rfl (by omega) (by omega)
      (by simp only [List.length_set, hlpd2]; omega)]
    rw [hexFill_step_lit [toHexChar (a >>> 4), toHexChar (a &&& 15), 65, 48,
        toHexChar (c >>> 4), toHexChar (c &&& 15), toHexChar (d >>> 4), toHexChar (d &&& 15)] off 0 3 (off + 5) _ 48 (by simp) rfl (by omega) (by omega)
      (by simp only [List.length_set, hlpd2]; omega)]
    rfl
  have hoffl : ((off : Nat) : Int) < (pD.length : Int) := by omega
  have hoffl2 : ((off : Nat) : Int) + 1 < ((pD.length : Nat) : Int) := by omega
  have hdl4 : (min (4 : Int) ((pD.length : Int) - (off : Int) - 2)).toNat = 4 := by
    omega
  have hoffcast : ((off : Nat) : Int) + 4 + 2 = ((off : Nat) : Int) + 6 := by omega
  simp only [List.getD_eq_getElem?_getD] at hset2 hhf
  simp [invRound, isTruthy, List.headD_cons, ha4, hg1, hg5, hglb, hset1, hset2,
    hbth, List.length_set, hdl4, hhf, hoffcast, hoffl, hoffl2]

theorem invTagLoop_append (rest : List (Option (List Nat))) (k : Nat) :
    ∀ (pre : List (Option (List Nat))) (pD pD₁ : List Nat) (off off₁ : Int),
      invTagLoop pre.length pre pD off = .done pD₁ off₁ →
      invTagLoop (pre.length + k) (pre ++ rest) pD off = invTagLoop k rest pD₁ off₁ := by
  intro pre
  induction pre with
  | nil =>
    intro pD pD₁ off off₁ h
    simp only [invTagLoop, List.length_nil] at h
    cases h
    simp only [List.length_nil, Nat.zero_add, List.nil_append]
  | cons x pre ih =>
    intro pD pD₁ off off₁ h
    simp only [List.length_cons] at h ⊢
    rw [show pre.length + 1 + k = (pre.length + k) + 1 from by omega]
    rw [invTagLoop] at h ⊢
    simp only [List.headD_cons, List.tail_cons, List.cons_append] at h ⊢
    cases hr : invRound x pD off with
    | ret cc pDx =>
      rw [hr] at h
      simp at h
    | stepExc pDx =>
      rw [hr] at h
      simp at h
    | next pDx offx =>
      rw [hr] at h
      exact ih pDx pD₁ offx off₁ h

set_option maxRecDepth 20000 in
/-- C2: an inventory session whose count response reports 2 tags and
whose two per-tag responses have `response[5] = 6` (`byte_count = 4`),
first byte not 4 and second byte 160, writes exactly two 6-byte
records into `pData` at offsets 0 and 6 — each record
`[byte_count + 1, lastByte, 4 hex chars]` with
`lastByte = response[response[0] - 1]` — stores 12 as a little-endian
2-byte value into `dataLen`, and returns 0. -/
theorem uhf_inventory_two_tags
    (a₁ c₁ d₁ e₁ : Nat) (tl₁ : List Nat) (a₂ c₂ d₂ e₂ : Nat) (tl₂ : List Nat)
    (cr : List Nat) (tagCount dataLen pData : List Nat)
    (hcr5 : 5 ≤ cr.length) (hcnt : cr.getD 4 0 = 2)
    (h1a : a₁ ≠ 4) (h1b : 1 ≤ a₁) (h1c : a₁ ≤ 6 + tl₁.length)
    (h1x : ∀ x ∈ (a₁ :: 160 :: c₁ :: d₁ :: e₁ :: 6 :: tl₁ : List Nat), x < 256)
    (h2a : a₂ ≠ 4) (h2b : 1 ≤ a₂) (h2c : a₂ ≤ 6 + tl₂.length)
    (h2x : ∀ x ∈ (a₂ :: 160 :: c₂ :: d₂ :: e₂ :: 6 :: tl₂ : List Nat), x < 256)
    (htc : 2 ≤ tagCount.length) (hdl : 2 ≤ dataLen.length) (hpd : 12 ≤ pData.length) :
    uhf_inventory [some cr, some (a₁ :: 160 :: c₁ :: d₁ :: e₁ :: 6 :: tl₁),
        some (a₂ :: 160 :: c₂ :: d₂ :: e₂ :: 6 :: tl₂)] tagCount dataLen pData =
      ((0 : Int), (tagCount.set 0 2).set 1 0, (dataLen.set 0 12).set 1 0,
        [5, (a₁ :: 160 :: c₁ :: d₁ :: e₁ :: 6 :: tl₁ : List Nat).getD (a₁ - 1) 0,
          toHexChar (a₁ >>> 4), toHexChar (a₁ &&& 15), 65, 48] ++
        [5, (a₂ :: 160 :: c₂ :: d₂ :: e₂ :: 6 :: tl₂ : List Nat).getD (a₂ - 1) 0,
          toHexChar (a₂ >>> 4), toHexChar (a₂ &&& 15), 65, 48] ++
        pData.drop 12) := by
  have hcrne : cr ≠ [] := by
    intro e
    subst e
    simp at hcr5
  have htrue : isTruthy (some cr) = true := by
    simp [isTruthy, List.isEmpty_iff, hcrne]
  rcases pData with _ | ⟨p0, _ | ⟨p1, _ | ⟨p2, _ | ⟨p3, _ | ⟨p4, _ | ⟨p5, _ | ⟨p6, _ |
    ⟨p7, _ | ⟨p8, _ | ⟨p9, _ | ⟨p10, _ | ⟨p11, rpd⟩⟩⟩⟩⟩⟩⟩⟩⟩⟩⟩⟩ <;>
      (simp only [List.length_cons, List.length_nil] at hpd; try omega)
  have hr1 := invRound_normal a₁ c₁ d₁ e₁ tl₁
    (p0 :: p1 :: p2 :: p3 :: p4 :: p5 :: p6 :: p7 :: p8 :: p9 :: p10 :: p11 :: rpd) 0
    h1a h1b h1c h1x (by simp only [List.length_cons]; omega)
  norm_num at hr1
  have hr2 := invRound_normal a₂ c₂ d₂ e₂ tl₂
    (((((((p0 :: p1 :: p2 :: p3 :: p4 :: p5 :: p6 :: p7 :: p8 :: p9 :: p10 :: p11 ::
      rpd : List Nat).set 0 5).set 1
        ((a₁ :: 160 :: c₁ :: d₁ :: e₁ :: 6 :: tl₁ : List Nat).getD (a₁ - 1) 0)).set 2
        (toHexChar (a₁ >>> 4))).set 3 (toHexChar (a₁ &&& 15))).set 4 65).set 5 48) 6
    h2a h2b h2c h2x (by simp only [List.length_set, List.length_cons]; omega)
  norm_num at hr2
  have hloop : invTagLoop 2 [some (a₁ :: 160 :: c₁ :: d₁ :: e₁ :: 6 :: tl₁),
      some (a₂ :: 160 :: c₂ :: d₂ :: e₂ :: 6 :: tl₂)]
      (p0 :: p1 :: p2 :: p3 :: p4 :: p5 :: p6 :: p7 :: p8 :: p9 :: p10 :: p11 :: rpd)
      0 = .done
        (5 :: (a₁ :: 160 :: c₁ :: d₁ :: e₁ :: 6 :: tl₁ : List Nat).getD (a₁ - 1) 0 ::
          toHexChar (a₁ >>> 4) :: toHexChar (a₁ &&& 15) :: 65 :: 48 ::
          5 :: (a₂ :: 160 :: c₂ :: d₂ :: e₂ :: 6 :: tl₂ : List Nat).getD (a₂ - 1) 0 ::
          toHexChar (a₂ >>> 4) :: toHexChar (a₂ &&& 15) :: 65 :: 48 :: rpd)
        12 := by
    rw [show (2 : Nat) = 0 + 1 + 1 from rfl]
    simp only [invTagLoop, List.headD_cons, List.tail_cons, hr1, hr2]
    simp [List.getD_eq_getElem?_getD]
  have htc1 : pySet tagCount 0 (((2 &&& 255 : Nat) : Nat) : Int) =
      .ok (tagCount.set 0 2) := by
    rw [show (((2 &&& 255 : Nat) : Nat) : Int) = 2 from by decide]
    rw [pySet_ok_int2 _ _ _ (by omega) (by omega) (by omega) (by omega)]
    rfl
  have htc2 : pySet (tagCount.set 0 2) 1 ((((2 >>> 8) &&& 255 : Nat) : Nat) : Int) =
      .ok ((tagCount.set 0 2).set 1 0) := by
    rw [show ((((2 >>> 8) &&& 255 : Nat) : Nat) : Int) = 0 from by decide]
    rw [pySet_ok_int2 _ _ _ (by omega) (by rw [List.length_set]; omega) (by omega)
      (by omega)]
    rfl
  have hd1 : pySet dataLen 0 (Int.emod 12 256) = .ok (dataLen.set 0 12) := by
    rw [show Int.emod 12 256 = 12 from by decide]
    rw [pySet_ok_int2 _ _ _ (by omega) (by omega) (by omega) (by omega)]
    rfl
  have hd2 : pySet (dataLen.set 0 12) 1 (Int.emod (Int.fdiv 12 256) 256) =
      .ok ((dataLen.set 0 12).set 1 0) := by
    rw [show Int.emod (Int.fdiv 12 256) 256 = 0 from by decide]
    rw [pySet_ok_int2 _ _ _ (by omega) (by rw [List.length_set]; omega) (by omega)
      (by omega)]
    rfl
  have htc2b : pySet (tagCount.set 0 2) 1 (0 : Int) =
      .ok ((tagCount.set 0 2).set 1 0) := by
    rw [pySet_ok_int2 _ _ _ (by omega) (by rw [List.length_set]; omega) (by omega)
      (by omega)]
    rfl
  have hd2b : pySet (dataLen.set 0 12) 1 (Int.emod 0 256) =
      .ok ((dataLen.set 0 12).set 1 0) := by
    rw [show Int.emod 0 256 = 0 from by decide]
    rw [pySet_ok_int2 _ _ _ (by omega) (by rw [List.length_set]; omega) (by omega)
      (by omega)]
    rfl
  unfold uhf_inventory
  simp only [List.headD_cons, List.tail_cons, Option.getD_some]
  rw [if_pos ⟨htrue, hcr5⟩, hcnt]
  simp [htc1, htc2, htc2b, hloop, hd1, hd2, hd2b, List.getD_eq_getElem?_getD]

set_option maxRecDepth 20000 in
/-- Witness for C2: a concrete two-tag session with responses
`[6,160,0,0,0,6]` and `[7,160,4,5,6,6,77]` (distinct `lastByte`
values 6 and 77) against a 14-byte buffer. -/
theorem uhf_inventory_two_tags_witness :
    uhf_inventory [some [0, 0, 0, 0, 2], some [6, 160, 0, 0, 0, 6],
        some [7, 160, 4, 5, 6, 6, 77]] [0, 0] [0, 0] (List.replicate 14 3) =
      (0, [2, 0], [12, 0],
        [5, 6, 48, 54, 65, 48, 5, 77, 48, 55, 65, 48, 3, 3]) := by
  have h := uhf_inventory_two_tags 6 0 0 0 [] 7 4 5 6 [77] [0, 0, 0, 0, 2]
    [0, 0] [0, 0] (List.replicate 14 3) (by decide) (by decide) (by decide)
    (by decide) (by decide) (by decide) (by decide) (by decide) (by decide)
    (by decide) (by decide) (by decide) (by decide)
  exact h

set_option maxRecDepth 40000 in
/-- C3: in an inventory session whose count response reports more tags
than the rounds already completed, a per-tag response whose first byte
equals 4 makes `uhf_inventory` return error code 4 immediately: the
records already written by the earlier rounds remain in `pData`
(`pD₁`), but `dataLen` is left untouched — the outcome is a failure,
not a partial success. -/
theorem uhf_inventory_device_fault
    (cr r : List Nat) (pre rest : List (Option (List Nat)))
    (tagCount dataLen pData pD₁ : List Nat) (off₁ : Int)
    (hcr5 : 5 ≤ cr.length) (hcount : pre.length < cr.getD 4 0)
    (htc : 2 ≤ tagCount.length)
    (hpre : invTagLoop pre.length pre pData 0 = .done pD₁ off₁)
    (hr : r ≠ []) (hr4 : r.headD 0 = 4) :
    uhf_inventory (some cr :: (pre ++ some r :: rest)) tagCount dataLen pData =
      ((4 : Int), (tagCount.set 0 (cr.getD 4 0 &&& 255)).set 1
        ((cr.getD 4 0 >>> 8) &&& 255), dataLen, pD₁) := by
  have hcrne : cr ≠ [] := by
    intro e
    subst e
    simp at hcr5
  have htrue : isTruthy (some cr) = true := by
    simp [isTruthy, List.isEmpty_iff, hcrne]
  have hround : invRound (some r) pD₁ off₁ = .ret 4 pD₁ := by
    unfold invRound
    rw [if_neg (by simp [isTruthy, List.isEmpty_iff, hr])]
    rw [Option.getD_some, if_pos hr4]
  have hloop : invTagLoop (cr.getD 4 0) (pre ++ some r :: rest) pData 0 =
      .ret 4 pD₁ := by
    rw [show cr.getD 4 0 = pre.length + (cr.getD 4 0 - pre.length) from by omega]
    rw [invTagLoop_append (some r :: rest) (cr.getD 4 0 - pre.length) pre pData pD₁
      0 off₁ hpre]
    obtain ⟨k, hk⟩ : ∃ k, cr.getD 4 0 - pre.length = k + 1 :=
      ⟨cr.getD 4 0 - pre.length - 1, by omega⟩
    rw [hk, invTagLoop]
    simp only [List.headD_cons, List.tail_cons, hround]
  have htc1 : pySet tagCount 0 ((cr.getD 4 0 &&& 255 : Nat) : Int) =
      .ok (tagCount.set 0 (cr.getD 4 0 &&& 255)) := by
    rw [pySet_ok_int2 _ _ _ (by omega) (by omega) (by omega)
      (by have := Nat.and_le_right (n := cr.getD 4 0) (m := 255); omega)]
    rw [Int.toNat_natCast]
    rfl
  have htc2 : pySet (tagCount.set 0 (cr.getD 4 0 &&& 255)) 1
      (((cr.getD 4 0 >>> 8) &&& 255 : Nat) : Int) =
      .ok ((tagCount.set 0 (cr.getD 4 0 &&& 255)).set 1
        ((cr.getD 4 0 >>> 8) &&& 255)) := by
    rw [pySet_ok_int2 _ _ _ (by omega) (by rw [List.length_set]; omega) (by omega)
      (by have := Nat.and_le_right (n := cr.getD 4 0 >>> 8) (m := 255); omega)]
    rw [Int.toNat_natCast]
    rfl
  unfold uhf_inventory
  simp only [List.headD_cons, List.tail_cons, Option.getD_some]
  rw [if_pos ⟨htrue, hcr5⟩]
  simp only [htc1, htc2, hloop]
  rw [if_neg (by omega : ¬ cr.getD 4 0 = 0)]

/-- Witness for C3: count 2, a first normal round writing one record,
then a response `[4]`; the session returns 4, the first record stays
in the buffer, and the (deliberately nonzero) `dataLen` bytes are
unchanged. -/
theorem uhf_inventory_device_fault_witness :
    uhf_inventory [some [1, 1, 1, 1, 2], some [6, 160, 0, 0, 0, 6], some [4]]
        [0, 0] [7, 7] (List.replicate 12 9) =
      (4, [2, 0], [7, 7], [5, 6, 48, 54, 65, 48, 9, 9, 9, 9, 9, 9]) := by
  have h := uhf_inventory_device_fault [1, 1, 1, 1, 2] [4] [some [6, 160, 0, 0, 0, 6]]
    [] [0, 0] [7, 7] (List.replicate 12 9) [5, 6, 48, 54, 65, 48, 9, 9, 9, 9, 9, 9] 6
    (by decide) (by decide) (by decide) (by rfl) (by decide) (by decide)
  exact h

/-- C10: there is a non-empty per-tag inventory response that is too
short to index — length 2, first byte not 4, second byte 160, so that
`response[5]` is out of range — for which `uhf_inventory` returns
`-13` via its generic exception handler rather than `-6` or `160`. -/
theorem uhf_inventory_short_response_minus13 :
    ∃ r : List Nat, r ≠ [] ∧ r.length = 2 ∧ r.headD 0 ≠ 4 ∧ r.getD 1 0 = 160 ∧
      (uhf_inventory [some [0, 0, 0, 0, 1], some r] [0, 0] [0, 0]
        (List.replicate 12 0)).1 = -13 ∧
      (-13 : Int) ≠ -6 ∧ (-13 : Int) ≠ 160 := by
  refine ⟨[9, 160], by decide, by decide, by decide, by decide, by rfl, by decide,
    by decide⟩
